import Mathlib

/-!
Verification of the synchronization data store described by the repository
specification (the server-side sync test model exercised by
net/tools/testserver/chromiumsync_test.py).  The store module itself
(chromiumsync.py) is not part of the source tree, only its test suite is;
the definitions below are therefore modelled from the specification, with
every concrete behavior pinned against the assertions of the test file.
-/

/-- Modelled from the spec: the fixed enumeration of sync data categories
(§3, `sync_type`), with the distinguished TOP_LEVEL root type and the
hierarchical BOOKMARK type.  The exact tail of the enumeration is not fixed
by the spec; the test suite only requires that TOP_LEVEL is first and that
every type has a permanent folder. -/
inductive SyncType where
  | TOP_LEVEL
  | BOOKMARK
  | PREFERENCE
  | AUTOFILL
  | THEME
  | TYPED_URL
  | PASSWORD
deriving DecidableEq

open SyncType

/-- Modelled from the spec: the list of all sync types (ALL_TYPES in the
test suite), TOP_LEVEL first. -/
def ALL_TYPES : List SyncType :=
  [TOP_LEVEL, BOOKMARK, PREFERENCE, AUTOFILL, THEME, TYPED_URL, PASSWORD]

/-- Modelled from the spec: the Item record (§3).  Field names follow the
wire names used by the test suite (SyncEntity protobuf). -/
structure SyncEntity where
  id_string : String
  version : Nat
  parent_id_string : String
  position_in_parent : Int
  name : String
  folder : Bool
  deleted : Bool
  sync_type : SyncType
  server_defined_unique_tag : Option String
  originator_client_item_id : String
  originator_cache_guid : String
  sync_timestamp : Nat
  insert_after_item_id : String
deriving DecidableEq

/-- A blank entity, used when the test suite builds a fresh protobuf. -/
def emptyEntity : SyncEntity :=
  { id_string := "", version := 0, parent_id_string := "",
    position_in_parent := 0, name := "", folder := false, deleted := false,
    sync_type := TOP_LEVEL, server_defined_unique_tag := none,
    originator_client_item_id := "", originator_cache_guid := "",
    sync_timestamp := 0, insert_after_item_id := "" }

/-- Modelled from the spec: a permanent item spec {tag, parent_tag,
sync_type, name} (§4.2). -/
structure PermanentItem where
  tag : String
  name : String
  parent_tag : String
  sync_type : SyncType
deriving DecidableEq

/-- Modelled from the spec: the fixed ordered permanent item table (§4.2):
the TOP_LEVEL root first (parent sentinel "0"), the hierarchical BOOKMARK
type with its intermediate folders, and one folder per remaining type.
The test suite requires parent tags to be declared before use and one
folder per sync type. -/
def PERMANENT_ITEM_SPECS : List PermanentItem :=
  [ { tag := "google_chrome", name := "Google Chrome",
      parent_tag := "0", sync_type := TOP_LEVEL },
    { tag := "google_chrome_bookmarks", name := "Bookmarks",
      parent_tag := "google_chrome", sync_type := BOOKMARK },
    { tag := "bookmark_bar", name := "Bookmark Bar",
      parent_tag := "google_chrome_bookmarks", sync_type := BOOKMARK },
    { tag := "other_bookmarks", name := "Other Bookmarks",
      parent_tag := "google_chrome_bookmarks", sync_type := BOOKMARK },
    { tag := "google_chrome_preferences", name := "Preferences",
      parent_tag := "google_chrome", sync_type := PREFERENCE },
    { tag := "google_chrome_autofill", name := "Autofill",
      parent_tag := "google_chrome", sync_type := AUTOFILL },
    { tag := "google_chrome_themes", name := "Themes",
      parent_tag := "google_chrome", sync_type := THEME },
    { tag := "google_chrome_typed_urls", name := "Typed URLs",
      parent_tag := "google_chrome", sync_type := TYPED_URL },
    { tag := "google_chrome_passwords", name := "Passwords",
      parent_tag := "google_chrome", sync_type := PASSWORD } ]

/-- Modelled from the spec: the store state (§4.1): the Entry Store keyed
by item id together with the global Clock/Version Counter (§2). -/
structure SyncDataModel where
  entries : List SyncEntity
  version : Nat
deriving DecidableEq

/-- A freshly constructed store: no entries, clock at zero. -/
def freshModel : SyncDataModel := { entries := [], version := 0 }

/-- Look up the stored entry with the given id. -/
def findEntry (m : SyncDataModel) (i : String) : Option SyncEntity :=
  m.entries.find? (fun e => e.id_string == i)

/-- Modelled from the spec: `exists(id) -> bool` (§4.1). -/
def ItemExists (m : SyncDataModel) (i : String) : Bool :=
  (findEntry m i).isSome

/-- Write `e` keyed by its id, overwriting any prior state for that id. -/
def upsert (e : SyncEntity) (l : List SyncEntity) : List SyncEntity :=
  l.filter (fun x => x.id_string != e.id_string) ++ [e]

/-- Sibling order: ascending `position_in_parent`, ties broken by id (§3). -/
def posLe (a b : SyncEntity) : Prop :=
  a.position_in_parent < b.position_in_parent ∨
    (a.position_in_parent = b.position_in_parent ∧ a.id_string ≤ b.id_string)

instance : DecidableRel posLe := fun a b => by
  unfold posLe; infer_instance

instance : IsTotal SyncEntity posLe := by
  constructor
  intro a b
  unfold posLe
  rcases lt_trichotomy a.position_in_parent b.position_in_parent with h | h | h
  · exact Or.inl (Or.inl h)
  · rcases le_total a.id_string b.id_string with h2 | h2
    · exact Or.inl (Or.inr ⟨h, h2⟩)
    · exact Or.inr (Or.inr ⟨h.symm, h2⟩)
  · exact Or.inr (Or.inl h)

instance : IsTrans SyncEntity posLe := by
  constructor
  intro a b c hab hbc
  unfold posLe at *
  rcases hab with h1 | ⟨h1, h1s⟩
  · rcases hbc with h2 | ⟨h2, _⟩
    · exact Or.inl (h1.trans h2)
    · exact Or.inl (h2 ▸ h1)
  · rcases hbc with h2 | ⟨h2, h2s⟩
    · exact Or.inl (h1 ▸ h2)
    · exact Or.inr ⟨h1.trans h2, le_trans h1s h2s⟩

/-- The non-deleted children of `parent_id`, in sibling order. -/
def siblings (m : SyncDataModel) (parent_id : String) : List SyncEntity :=
  List.insertionSort posLe
    (m.entries.filter (fun x => x.parent_id_string == parent_id && !x.deleted))

/-- Modelled from the spec: the fixed gap constant GAP = 2^20 (§4.3). -/
def GAP : Int := 2 ^ 20

/-- Placement just before (`sign = -1`) or just after (`sign = 1`) a
limiting sibling: one gap beyond it, or exactly its own position when the
limiting sibling is the entry being placed (re-placement is a no-op). -/
def extendRange (entry lim : SyncEntity) (sign : Int) : Int :=
  lim.position_in_parent +
    (if lim.id_string == entry.id_string then 0 else sign * GAP)

/-- Find the sibling with the given id in an ordered sibling list, paired
with its immediate successor (`none` when it is the last sibling). -/
def succAfter : List SyncEntity → String → Option (SyncEntity × Option SyncEntity)
  | [], _ => none
  | [a], i => if a.id_string == i then some (a, none) else none
  | a :: b :: rest, i =>
    if a.id_string == i then some (a, some b) else succAfter (b :: rest) i

/-- Modelled from the spec: the Sibling Position Allocator,
`compute_position(parent_id, predecessor_id, moving_item_id)` (§4.3),
realized as the test model's `_WritePosition`: the entry's parent is set,
its relative `insert_after_item_id` is cleared, and an absolute
`position_in_parent` is computed from the current non-deleted children of
the parent.  The spec's prose excludes the moving item from the sibling
sequence and bisects gaps at the midpoint; the repository test
(testWritePosition) instead pins behavior in which the moving item stays
in the sibling sequence, re-placement reproduces the current key via the
identity checks, and an insertion between a predecessor at key P and a
successor at key S lands at P + (S - P) / 8 (floor division) — e.g. the
test requires 1100, not the midpoint 1400, between keys 1000 and 1800.
Fails (`none`) when the requested predecessor cannot be resolved. -/
def positionKey (m : SyncDataModel) (entry : SyncEntity)
    (parent_id prev_id0 : String) : Option Int :=
  let sibs := siblings m parent_id
  let prev_id := if prev_id0 == entry.id_string then "" else prev_id0
  if prev_id == "" then
    match sibs with
    | [] => some 0
    | f :: _ => some (extendRange entry f (-1))
  else
    match findEntry m prev_id with
    | none => none
    | some prev_entry =>
      match succAfter sibs prev_entry.id_string with
      | none => none
      | some (p, none) => some (extendRange entry p 1)
      | some (p, some s) =>
        if s.id_string == entry.id_string then
          some s.position_in_parent
        else
          some (p.position_in_parent +
            (s.position_in_parent - p.position_in_parent).fdiv 8)

/-- The full position write: compute the key and update the entry's
parent, absolute position, and (cleared) relative position fields. -/
def WritePosition (m : SyncDataModel) (entry : SyncEntity)
    (parent_id prev_id : String) : Option SyncEntity :=
  (positionKey m entry parent_id prev_id).map
    (fun k => { entry with parent_id_string := parent_id,
                           insert_after_item_id := "",
                           position_in_parent := k })

/-- Modelled from the spec: the literal §4.3 prose of `compute_position`,
for comparison with the behavior pinned by the repository test: the
sibling sequence excludes the moving item, an empty sequence yields key 0,
a head insert yields F - GAP, a tail insert yields P + GAP, and an insert
between keys P and S yields the midpoint P + (S - P) / 2.  Returns just
the computed key. -/
def compute_position_spec (m : SyncDataModel) (entry : SyncEntity)
    (parent_id prev_id : String) : Option Int :=
  let sibs := (siblings m parent_id).filter
    (fun x => x.id_string != entry.id_string)
  match sibs with
  | [] => some 0
  | f :: _ =>
    if prev_id == "" || prev_id == entry.id_string then
      some (f.position_in_parent - GAP)
    else
      match succAfter sibs prev_id with
      | none => none
      | some (p, none) => some (p.position_in_parent + GAP)
      | some (p, some s) =>
        some (p.position_in_parent +
          (s.position_in_parent - p.position_in_parent).fdiv 2)

/-- Modelled from the spec: `save(item) -> version` (§4.1): assigns the
next Clock value to the item's `version` (and, as the test suite pins, the
matching `sync_timestamp`), writes the item keyed by its id overwriting
any prior state for that id, and returns the saved item carrying the
assigned version. -/
def SaveEntry (m : SyncDataModel) (e0 : SyncEntity) : SyncDataModel × SyncEntity :=
  let v := m.version + 1
  let e := { e0 with version := v, sync_timestamp := v }
  ({ entries := upsert e m.entries, version := v }, e)

/-- Modelled from the spec: the deterministic derivation of a permanent
item's server id from its tag (§4.2), with the root sentinel "0" mapped to
itself. -/
def serverTagToId (tag : String) : String :=
  if tag == "0" then "0" else "permanent_tag:" ++ tag

/-- Modelled from the spec: lazy materialization of one permanent item
(§4.2): if an item with the spec's tag-derived id does not yet exist,
synthesize a folder item carrying the tag, position it under the
already-materialized parent tag's item, and save it.  `permEntity` is the
synthesized folder item for a spec. -/
def permEntity (spec : PermanentItem) : SyncEntity :=
  { emptyEntity with
      id_string := serverTagToId spec.tag, name := spec.name, folder := true,
      sync_type := spec.sync_type, server_defined_unique_tag := some spec.tag }

def CreatePermanentItem (m : SyncDataModel) (spec : PermanentItem) : SyncDataModel :=
  if ItemExists m (serverTagToId spec.tag) then m
  else
    match WritePosition m (permEntity spec) (serverTagToId spec.parent_tag) "" with
    | none => m
    | some positioned => (SaveEntry m positioned).1

/-- Whether a permanent item spec is materialized for a request: its type
is requested, or it is the implicit TOP_LEVEL root. -/
def relevantB (types : List SyncType) (spec : PermanentItem) : Bool :=
  types.contains spec.sync_type || spec.sync_type == TOP_LEVEL

/-- Walk a spec table in declaration order, materializing every relevant
spec. -/
def foldCreate (m : SyncDataModel) (specs : List PermanentItem)
    (types : List SyncType) : SyncDataModel :=
  specs.foldl
    (fun acc spec =>
      if relevantB types spec then CreatePermanentItem acc spec else acc) m

/-- Modelled from the spec: `ensure_permanent_items(requested_types)`
(§4.2): walk the spec table in declaration order and materialize every
spec whose type is requested, plus the implicit TOP_LEVEL root. -/
def CreatePermanentItems (m : SyncDataModel) (types : List SyncType) : SyncDataModel :=
  foldCreate m PERMANENT_ITEM_SPECS types

/-- Modelled from the spec: the fixed change-feed batch bound (§4.4). -/
def BATCH_SIZE : Nat := 80

/-- Change-feed order: ascending `version`. -/
def verLe (a b : SyncEntity) : Prop := a.version ≤ b.version

instance : DecidableRel verLe := fun a b => by
  unfold verLe; infer_instance

instance : IsTotal SyncEntity verLe :=
  ⟨fun a b => Nat.le_total a.version b.version⟩

instance : IsTrans SyncEntity verLe :=
  ⟨fun _ _ _ h1 h2 => Nat.le_trans h1 h2⟩

/-- Sort a list of entries ascending by version. -/
def sortVer (l : List SyncEntity) : List SyncEntity :=
  List.insertionSort verLe l

/-- Strict version order. -/
def vlt (a b : SyncEntity) : Prop := a.version < b.version

/-- The change-feed type filter: an entry is reported when its type is
requested, or unconditionally when it is a tombstone (deleted entries are
untyped on the wire, so deletions of any type flow to every client). -/
def typeMatch (types : List SyncType) (e : SyncEntity) : Bool :=
  types.contains e.sync_type || e.deleted

/-- The entries of the change log newer than `since`, oldest first. -/
def newChanges (l : List SyncEntity) (since : Nat) : List SyncEntity :=
  (sortVer l).filter (fun e => decide (since < e.version))

/-- Modelled from the spec: the Change Feed,
`get_changes(request_types, since_version) -> (new_watermark, items)`
(§4.4): first materialize permanent items for the requested types, then
page through the global change log.  The spec's prose selects the
requested types before paginating and makes the watermark the version of
the last returned item; the repository test
(testGetChangesFromTimestampZeroForEachType, testBatchSize) instead pins
the behavior in which the BATCH_SIZE truncation applies to the full
change log (entries of every type, oldest first, tombstones included)
before the type filter, and the new watermark is the version of the last
entry of that unfiltered batch, whether or not that entry is returned.
The possibly-updated store is returned first. -/
def GetChangesFromTimestamp (m : SyncDataModel) (types : List SyncType)
    (since : Nat) : SyncDataModel × Nat × List SyncEntity :=
  let m1 := CreatePermanentItems m types
  let batch := (newChanges m1.entries since).take BATCH_SIZE
  match batch.getLast? with
  | none => (m1, since, [])
  | some last => (m1, last.version, batch.filter (typeMatch types))

/-- Repeatedly call the change feed, feeding each returned watermark into
the next call, until the watermark stops advancing, i.e. until the
underlying batch is empty (or fuel runs out); returns the concatenation
of all returned item lists. -/
def collectChanges : SyncDataModel → List SyncType → Nat → Nat → List SyncEntity
  | _, _, _, 0 => []
  | m, types, since, fuel + 1 =>
    let r := GetChangesFromTimestamp m types since
    if r.2.1 == since then [] else r.2.2 ++ collectChanges r.1 types r.2.1 fuel

/-- Modelled from the spec: the literal §4.4 change-feed prose, for
comparison with the behavior pinned by the repository test: select the
items whose `sync_type` is requested and whose version exceeds
`since_version`, order them ascending by version, truncate to BATCH_SIZE,
and return as watermark the version of the last returned item (or
`since_version` unchanged if nothing matched). -/
def get_changes_spec (m : SyncDataModel) (types : List SyncType)
    (since : Nat) : SyncDataModel × Nat × List SyncEntity :=
  let m1 := CreatePermanentItems m types
  let batch := ((sortVer m1.entries).filter
    (fun e => types.contains e.sync_type && decide (since < e.version))).take
      BATCH_SIZE
  (m1, ((batch.getLast?).map (fun e => e.version)).getD since, batch)

/-- Modelled from the spec: a commit session (§4.5): a per-batch mapping
from client-proposed id to server-assigned id. -/
abbrev Session := List (String × String)

/-- Session lookup. -/
def sessLookup (s : Session) (k : String) : Option String :=
  (s.find? (fun q => q.1 == k)).map (fun q => q.2)

/-- Whether the session maps the given key. -/
def sessHasKey (s : Session) (k : String) : Bool := (sessLookup s k).isSome

/-- Map-style session insert: replaces the binding when the key is
already present, otherwise appends one binding. -/
def sessInsert (s : Session) (k v : String) : Session :=
  if sessHasKey s k then s.map (fun q => if q.1 == k then (k, v) else q)
  else s ++ [(k, v)]

/-- Resolve an id through the session (§4.5 steps 2-3): substitute the
mapped server id when the session has the key, else use the id as given. -/
def resolveId (s : Session) (i : String) : String := (sessLookup s i).getD i

/-- Length of the longest string in the list. -/
def maxLen (l : List String) : Nat := l.foldr (fun s acc => max s.length acc) 0

/-- Modelled from the spec: server id synthesis for a brand-new item
(§4.5 step 1, §7): a candidate guaranteed distinct from every taken id —
here by being strictly longer than all of them, which discharges the
spec's uniqueness-with-retry requirement deterministically. -/
def freshId (taken : List String) : String :=
  String.mk ('s' :: List.replicate (maxLen taken) 'x')

/-- Modelled from the spec: the Commit Reconciler,
`commit(proposed_item, client_guid, session) -> authoritative_item`
(§4.5).  A proposal with version zero and no pre-existing server id is a
new item: it receives a synthesized server id, its originator fields
record the client-proposed id and the client guid, and the session gains
the mapping from client id to server id.  Otherwise the proposal is an
update and must reference a stored item, whose id and originator fields
are preserved.  The parent and requested predecessor are resolved through
the session, the parent must exist in the store, the position allocator
computes the absolute position, and the Entry Store assigns the next
global version.  Any unresolvable reference fails the commit (`none`).
`commitFinish` is the shared tail of both commit paths: the parent
existence check, the position write, and the save. -/
def commitFinish (m : SyncDataModel) (e1 : SyncEntity) (sess1 : Session)
    (parent prev : String) : Option (SyncDataModel × Session × SyncEntity) :=
  if !(ItemExists m parent) then none
  else
    match WritePosition m e1 parent prev with
    | none => none
    | some e2 => some ((SaveEntry m e2).1, sess1, (SaveEntry m e2).2)

def CommitEntry (m : SyncDataModel) (p : SyncEntity) (guid : String)
    (sess : Session) : Option (SyncDataModel × Session × SyncEntity) :=
  if p.version == 0 && !(ItemExists m p.id_string) then
    commitFinish m
      { p with
          id_string := freshId (p.id_string ::
            m.entries.map (fun e => e.id_string)),
          originator_client_item_id := p.id_string,
          originator_cache_guid := guid }
      (sessInsert sess p.id_string
        (freshId (p.id_string :: m.entries.map (fun e => e.id_string))))
      (resolveId (sessInsert sess p.id_string
          (freshId (p.id_string :: m.entries.map (fun e => e.id_string))))
        p.parent_id_string)
      (resolveId (sessInsert sess p.id_string
          (freshId (p.id_string :: m.entries.map (fun e => e.id_string))))
        p.insert_after_item_id)
  else
    match findEntry m p.id_string with
    | none => none
    | some base =>
      commitFinish m
        { p with
            originator_client_item_id := base.originator_client_item_id,
            originator_cache_guid := base.originator_cache_guid }
        sess (resolveId sess p.parent_id_string)
        (resolveId sess p.insert_after_item_id)

/-- Modelled from the spec: the batch commit interface (§6): loop the
Commit Reconciler over the proposals, sharing one session; the batch is
all-or-nothing (a failing item fails the batch). -/
def CommitBatch : SyncDataModel → List SyncEntity → String → Session →
    Option (SyncDataModel × Session × List SyncEntity)
  | m, [], _, sess => some (m, sess, [])
  | m, p :: rest, guid, sess =>
    match CommitEntry m p guid sess with
    | none => none
    | some (m1, s1, r) =>
      match CommitBatch m1 rest guid s1 with
      | none => none
      | some (m2, s2, rs) => some (m2, s2, r :: rs)

/-- The permanent item count the test suite expects for a request of one
type plus TOP_LEVEL: the hierarchical BOOKMARK type has three folders, the
root alone has one item, every other type has its folder plus the root. -/
def ExpectedPermanentItemCount (t : SyncType) : Nat :=
  if t == BOOKMARK then 4 else if t == TOP_LEVEL then 1 else 2

/-- A request-type membership mask, one bit per sync type. -/
def maskFun (b1 b2 b3 b4 b5 b6 b7 : Bool) : SyncType → Bool
  | TOP_LEVEL => b1
  | BOOKMARK => b2
  | PREFERENCE => b3
  | AUTOFILL => b4
  | THEME => b5
  | TYPED_URL => b6
  | PASSWORD => b7

/-- The superset scenario of the permanent-item idempotence claim: from a
fresh store, read changes for one type (materializing its permanent
items), then for a wider type list `T2`, then for the original request
again.  The final call must leave the store untouched, reproduce the
wider call's watermark, return the expected item count, and the wider
call must not have disturbed any already-created permanent item. -/
def C4Superset (st : SyncType) (T2 : List SyncType) : Prop :=
  let r1 := GetChangesFromTimestamp freshModel [st, TOP_LEVEL] 0
  let r2 := GetChangesFromTimestamp r1.1 T2 0
  let r3 := GetChangesFromTimestamp r2.1 [st, TOP_LEVEL] 0
  r3.1 = r2.1 ∧ r3.2.1 = r2.2.1 ∧
  r3.2.2.length = ExpectedPermanentItemCount st ∧
  (∀ e ∈ r1.1.entries, findEntry r2.1 e.id_string = some e)

instance (st : SyncType) (T2 : List SyncType) : Decidable (C4Superset st T2) := by
  unfold C4Superset
  infer_instance

/-- The per-call contract of the change feed, used by the amended
pagination claim: the store is mutated only by permanent-item
materialization; the returned items are the type-matching (or deleted)
entries of the at-most-BATCH_SIZE oldest change-log entries newer than
`since`; the returned items are exactly the matching entries between
`since` (exclusive) and the watermark (inclusive), in strictly ascending
version order; the watermark is `since` when the change log is exhausted
and the version of the last batch entry otherwise; and iterating until
the watermark stops advancing yields exactly the matching portion of the
change log. -/
def GetChangesOk (m : SyncDataModel) (types : List SyncType) (since : Nat) : Prop :=
  (GetChangesFromTimestamp m types since).1 = CreatePermanentItems m types ∧
  (GetChangesFromTimestamp m types since).2.2 =
    ((newChanges (CreatePermanentItems m types).entries since).take
      BATCH_SIZE).filter (typeMatch types) ∧
  (∀ e, e ∈ (GetChangesFromTimestamp m types since).2.2 ↔
    (e ∈ (CreatePermanentItems m types).entries ∧ typeMatch types e = true ∧
     since < e.version ∧
     e.version ≤ (GetChangesFromTimestamp m types since).2.1)) ∧
  List.Pairwise vlt (GetChangesFromTimestamp m types since).2.2 ∧
  (GetChangesFromTimestamp m types since).2.2.length ≤ BATCH_SIZE ∧
  ((newChanges (CreatePermanentItems m types).entries since).take
      BATCH_SIZE = [] →
    GetChangesFromTimestamp m types since =
      (CreatePermanentItems m types, since, [])) ∧
  (∀ g, ((newChanges (CreatePermanentItems m types).entries since).take
      BATCH_SIZE).getLast? = some g →
    (GetChangesFromTimestamp m types since).2.1 = g.version) ∧
  (∀ fuel, (newChanges (CreatePermanentItems m types).entries
      since).length ≤ fuel * BATCH_SIZE →
    collectChanges m types since fuel =
      (newChanges (CreatePermanentItems m types).entries since).filter
        (typeMatch types))

/-- A bare entity carrying only an id, as the test suite builds for
position queries. -/
def posEntity (i : String) : SyncEntity := { emptyEntity with id_string := i }

/-- The sibling fixture store of the repository test testWritePosition:
children a, b, c of X at keys 1000, 1800, 2600; a1, a2, a3 of Z at 1007,
1807, 2607; a single child s of Y at 10000. -/
def testPosModel : SyncDataModel :=
  { entries := [ { emptyEntity with id_string := "a", parent_id_string := "X", position_in_parent := 1000 },
                 { emptyEntity with id_string := "b", parent_id_string := "X", position_in_parent := 1800 },
                 { emptyEntity with id_string := "c", parent_id_string := "X", position_in_parent := 2600 },
                 { emptyEntity with id_string := "a1", parent_id_string := "Z", position_in_parent := 1007 },
                 { emptyEntity with id_string := "a2", parent_id_string := "Z", position_in_parent := 1807 },
                 { emptyEntity with id_string := "a3", parent_id_string := "Z", position_in_parent := 2607 },
                 { emptyEntity with id_string := "s", parent_id_string := "Y", position_in_parent := 10000 } ],
    version := 0 }

/-- Fold a sequence of saves over the store. -/
def saveAll (m : SyncDataModel) (es : List SyncEntity) : SyncDataModel :=
  es.foldl (fun acc e => (SaveEntry acc e).1) m

/-- The versions assigned by a sequence of saves, in order. -/
def assignedVersions : SyncDataModel → List SyncEntity → List Nat
  | _, [] => []
  | m, e :: rest =>
    let r := SaveEntry m e
    r.2.version :: assignedVersions r.1 rest

/-- Store well-formedness: ids are pairwise distinct, versions are
pairwise distinct, and every stored version is positive and bounded by
the global clock.  Holds of the fresh store and is preserved by every
mutating operation. -/
def Wf (m : SyncDataModel) : Prop :=
  (m.entries.map (fun e => e.id_string)).Nodup ∧
  m.entries.Pairwise (fun a b => a.version ≠ b.version) ∧
  (∀ e ∈ m.entries, 1 ≤ e.version ∧ e.version ≤ m.version)

instance (m : SyncDataModel) : Decidable (Wf m) := by
  unfold Wf; infer_instance

/-- The cache guid of the first committing client in the commit
fixtures. -/
def guid1 : String := "112358132134"

/-- The cache guid of the second committing client in the commit
fixtures. -/
def guid2 : String := "A different GUID"

/-- A client-proposed brand-new bookmark folder item, as the repository
test builds for commits. -/
def mkCommitProto (i nm par prev : String) : SyncEntity :=
  { emptyEntity with
      id_string := i, name := nm, parent_id_string := par,
      insert_after_item_id := prev, sync_type := BOOKMARK, folder := true }

/-- A client-proposed update to an already-committed item, echoing its
server id and version. -/
def mkUpdateProto (orig : SyncEntity) (par prev : String) : SyncEntity :=
  { emptyEntity with
      id_string := orig.id_string, version := orig.version,
      name := orig.name, parent_id_string := par,
      insert_after_item_id := prev, sync_type := BOOKMARK, folder := true }

/-- The store holding every permanent item, obtained by bootstrapping the
change feed once for all types; the fixture of the pagination
counterexample. -/
def cxBootModel : SyncDataModel :=
  (GetChangesFromTimestamp freshModel ALL_TYPES 0).1

instance : Fintype SyncType :=
  ⟨⟨[TOP_LEVEL, BOOKMARK, PREFERENCE, AUTOFILL, THEME, TYPED_URL,
     PASSWORD], by decide⟩, fun x => by cases x <;> decide⟩

/-- The first child of parent X in the position fixture. -/
def entA : SyncEntity :=
  { emptyEntity with
      id_string := "a", parent_id_string := "X", position_in_parent := 1000 }

/-- The second child of parent X in the position fixture. -/
def entB : SyncEntity :=
  { emptyEntity with
      id_string := "b", parent_id_string := "X", position_in_parent := 1800 }

/-- The third child of parent X in the position fixture. -/
def entC : SyncEntity :=
  { emptyEntity with
      id_string := "c", parent_id_string := "X", position_in_parent := 2600 }

/-- Commit-fixture store: the bookmark permanent items materialized from
a fresh store. -/
def wBootModel : SyncDataModel :=
  (GetChangesFromTimestamp freshModel [BOOKMARK] 0).1

/-- Commit-fixture proposal: a brand-new folder under Other Bookmarks. -/
def wProtoFoo : SyncEntity :=
  mkCommitProto "Foo" "namae" "permanent_tag:other_bookmarks" ""

/-- The outcome of committing the Foo proposal (defaulted so that the
components can be projected; the commit does succeed). -/
def wCommit1 : SyncDataModel × Session × SyncEntity :=
  (CommitEntry wBootModel wProtoFoo guid1 []).getD (freshModel, [], emptyEntity)

/-- Commit-fixture proposal: a second new folder whose parent references
the first proposal's client-proposed id. -/
def wProtoBar : SyncEntity := mkCommitProto "Bar" "Secondo" "Foo" ""

/-- The outcome of committing the Bar proposal in the same session. -/
def wCommit2 : SyncDataModel × Session × SyncEntity :=
  (CommitEntry wCommit1.1 wProtoBar guid1 wCommit1.2.1).getD
    (freshModel, [], emptyEntity)

/-- Commit-fixture proposal: an update re-committing the stored Foo item
from a different client, echoing its server id and version. -/
def wProtoFooUpd : SyncEntity :=
  mkUpdateProto wCommit1.2.2 "permanent_tag:other_bookmarks" ""

/-- The outcome of committing the update proposal in a fresh session. -/
def wCommit3 : SyncDataModel × Session × SyncEntity :=
  (CommitEntry wCommit2.1 wProtoFooUpd guid2 []).getD
    (freshModel, [], emptyEntity)

/-- The outcome of committing Foo and Bar as one batch. -/
def wBatch : SyncDataModel × Session × List SyncEntity :=
  (CommitBatch wBootModel [wProtoFoo, wProtoBar] guid1 []).getD
    (freshModel, [], [])

/-- The Other Bookmarks permanent item as stored in the commit-fixture
store. -/
def wOB : SyncEntity :=
  (findEntry wBootModel "permanent_tag:other_bookmarks").getD emptyEntity

/-! ### Basic store lemmas -/

theorem findEntry_id {m : SyncDataModel} {i : String} {e : SyncEntity}
    (h : findEntry m i = some e) : e.id_string = i := by
  have h2 := List.find?_some h
  exact eq_of_beq h2

theorem findEntry_mem {m : SyncDataModel} {i : String} {e : SyncEntity}
    (h : findEntry m i = some e) : e ∈ m.entries :=
  List.mem_of_find?_eq_some h

theorem find?_filter_ne (e : SyncEntity) (l : List SyncEntity) (i : String)
    (h : i ≠ e.id_string) :
    (l.filter (fun x => x.id_string != e.id_string)).find?
        (fun x => x.id_string == i) =
      l.find? (fun x => x.id_string == i) := by
  induction l with
  | nil => rfl
  | cons a t ih =>
    by_cases hai : a.id_string = i
    · have h1 : (a.id_string != e.id_string) = true := by
        simp only [bne_iff_ne, ne_eq]
        intro hc
        exact h (hai ▸ hc)
      simp [List.filter_cons, h1, List.find?_cons, hai, h]
    · have h3 : (e.id_string == i) = false := by
        simp only [beq_eq_false_iff_ne, ne_eq]
        exact fun hc => h hc.symm
      by_cases ha : a.id_string = e.id_string
      · simp [List.filter_cons, ha, List.find?_cons, hai, ih, h3]
      · simp [List.filter_cons, ha, List.find?_cons, hai, ih, h3]

theorem find?_upsert_self (e : SyncEntity) (l : List SyncEntity) :
    (upsert e l).find? (fun x => x.id_string == e.id_string) = some e := by
  unfold upsert
  rw [List.find?_append]
  have h1 : (l.filter (fun x => x.id_string != e.id_string)).find?
      (fun x => x.id_string == e.id_string) = none := by
    rw [List.find?_eq_none]
    intro a ha
    have h2 := List.of_mem_filter ha
    simp only [bne_iff_ne, ne_eq] at h2
    simp [h2]
  rw [h1]
  simp [List.find?]

theorem find?_upsert_ne (e : SyncEntity) (l : List SyncEntity) (i : String)
    (h : i ≠ e.id_string) :
    (upsert e l).find? (fun x => x.id_string == i) =
      l.find? (fun x => x.id_string == i) := by
  unfold upsert
  rw [List.find?_append, find?_filter_ne e l i h]
  have h2 : (e.id_string == i) = false := by
    simp only [beq_eq_false_iff_ne, ne_eq]
    exact fun hc => h hc.symm
  cases hf : l.find? (fun x => x.id_string == i) <;> simp [List.find?, h2]

theorem SaveEntry_id (m : SyncDataModel) (e : SyncEntity) :
    (SaveEntry m e).2.id_string = e.id_string := rfl

theorem SaveEntry_version (m : SyncDataModel) (e : SyncEntity) :
    (SaveEntry m e).2.version = m.version + 1 := rfl

theorem SaveEntry_clock (m : SyncDataModel) (e : SyncEntity) :
    (SaveEntry m e).1.version = m.version + 1 := rfl

theorem findEntry_SaveEntry_self (m : SyncDataModel) (e : SyncEntity) :
    findEntry (SaveEntry m e).1 e.id_string = some (SaveEntry m e).2 := by
  show ((upsert (SaveEntry m e).2 m.entries).find?
    (fun x => x.id_string == e.id_string)) = some (SaveEntry m e).2
  have h := find?_upsert_self (SaveEntry m e).2 m.entries
  rw [show (SaveEntry m e).2.id_string = e.id_string from rfl] at h
  exact h

theorem findEntry_SaveEntry_ne (m : SyncDataModel) (e : SyncEntity)
    (i : String) (h : i ≠ e.id_string) :
    findEntry (SaveEntry m e).1 i = findEntry m i := by
  show ((upsert (SaveEntry m e).2 m.entries).find?
    (fun x => x.id_string == i)) = _
  exact find?_upsert_ne (SaveEntry m e).2 m.entries i h

theorem ItemExists_SaveEntry_self (m : SyncDataModel) (e : SyncEntity) :
    ItemExists (SaveEntry m e).1 e.id_string = true := by
  unfold ItemExists
  rw [findEntry_SaveEntry_self]
  rfl

theorem ItemExists_SaveEntry_mono {m : SyncDataModel} {i : String}
    (e : SyncEntity) (h : ItemExists m i = true) :
    ItemExists (SaveEntry m e).1 i = true := by
  by_cases hi : i = e.id_string
  · subst hi; exact ItemExists_SaveEntry_self m e
  · unfold ItemExists
    rw [findEntry_SaveEntry_ne m e i hi]
    exact h

theorem mem_SaveEntry_entries {x : SyncEntity} {m : SyncDataModel}
    {e : SyncEntity} :
    x ∈ (SaveEntry m e).1.entries ↔
      (x ∈ m.entries ∧ x.id_string ≠ e.id_string) ∨ x = (SaveEntry m e).2 := by
  show x ∈ upsert (SaveEntry m e).2 m.entries ↔ _
  unfold upsert
  rw [List.mem_append, List.mem_filter]
  simp [SaveEntry]

theorem Wf_fresh : Wf freshModel := by
  refine ⟨List.nodup_nil, List.Pairwise.nil, ?_⟩
  intro e he
  simp [freshModel] at he

theorem Wf_SaveEntry {m : SyncDataModel} (hw : Wf m) (e : SyncEntity) :
    Wf (SaveEntry m e).1 := by
  obtain ⟨hids, hvers, hbound⟩ := hw
  have hfsub : (m.entries.filter (fun x =>
      x.id_string != (SaveEntry m e).2.id_string)).Sublist m.entries :=
    List.filter_sublist m.entries
  have hmemf : ∀ x ∈ m.entries.filter (fun x =>
      x.id_string != (SaveEntry m e).2.id_string),
      x ∈ m.entries ∧ x.id_string ≠ e.id_string := by
    intro x hx
    have h1 := List.mem_filter.mp hx
    refine ⟨h1.1, ?_⟩
    have := h1.2
    simpa [SaveEntry] using this
  refine ⟨?_, ?_, ?_⟩
  · show ((upsert (SaveEntry m e).2 m.entries).map (fun x => x.id_string)).Nodup
    unfold upsert
    rw [List.map_append]
    rw [List.nodup_append]
    refine ⟨List.Nodup.sublist (hfsub.map (fun x => x.id_string)) hids, by simp, ?_⟩
    intro a ha
    simp only [List.mem_map] at ha
    obtain ⟨x, hx, hxa⟩ := ha
    have h2 := (hmemf x hx).2
    simp only [List.map_cons, List.map_nil, List.mem_singleton]
    intro hc
    apply h2
    rw [← hxa] at hc
    simpa [SaveEntry] using hc
  · show ((upsert (SaveEntry m e).2 m.entries)).Pairwise
      (fun a b => a.version ≠ b.version)
    unfold upsert
    rw [List.pairwise_append]
    refine ⟨List.Pairwise.sublist hfsub hvers, List.pairwise_singleton _ _, ?_⟩
    intro a ha b hb
    have haM := (hmemf a ha).1
    have hav := (hbound a haM).2
    rw [List.mem_singleton] at hb
    subst hb
    rw [SaveEntry_version]
    omega
  · intro x hx
    rw [show ((SaveEntry m e).1.entries) =
      upsert (SaveEntry m e).2 m.entries from rfl] at hx
    unfold upsert at hx
    rw [List.mem_append] at hx
    rw [SaveEntry_clock]
    rcases hx with hx | hx
    · have haM := (hmemf x hx).1
      have := hbound x haM
      omega
    · rw [List.mem_singleton] at hx
      subst hx
      rw [SaveEntry_version]
      omega

/-! ### Position allocator lemmas -/

theorem WritePosition_eq (m : SyncDataModel) (e : SyncEntity) (par pr : String) :
    WritePosition m e par pr = (positionKey m e par pr).map
      (fun k => { e with parent_id_string := par, insert_after_item_id := "",
                         position_in_parent := k }) := rfl

theorem WritePosition_some_iff {m : SyncDataModel} {e : SyncEntity}
    {par pr : String} {e2 : SyncEntity} :
    WritePosition m e par pr = some e2 ↔
      ∃ k, positionKey m e par pr = some k ∧
        e2 = { e with parent_id_string := par, insert_after_item_id := "",
                      position_in_parent := k } := by
  rw [WritePosition_eq]
  cases positionKey m e par pr <;> simp <;> exact ⟨fun h => h.symm, fun h => h.symm⟩

theorem positionKey_noPrev (m : SyncDataModel) (e : SyncEntity) (par : String) :
    positionKey m e par "" =
      (match siblings m par with
       | [] => some 0
       | f :: _ => some (extendRange e f (-1))) := by
  unfold positionKey
  have h0 : (("" : String) == "") = true := rfl
  by_cases h : (("" : String) == e.id_string) = true
  · simp only [h, if_true, h0]
  · simp only [h, Bool.false_eq_true, if_false, h0, if_true]

theorem positionKey_prev_self (m : SyncDataModel) (e : SyncEntity) (par : String) :
    positionKey m e par e.id_string = positionKey m e par "" := by
  unfold positionKey
  have h0 : (("" : String) == "") = true := rfl
  simp only [beq_self_eq_true, if_true, h0]
  by_cases h : (("" : String) == e.id_string) = true
  · simp only [h, if_true, h0, if_true]
  · simp only [h, Bool.false_eq_true, if_false, h0, if_true]

theorem positionKey_prev (m : SyncDataModel) (e : SyncEntity) (par pr : String)
    (hne : pr ≠ "") (hse : pr ≠ e.id_string) :
    positionKey m e par pr =
      (match findEntry m pr with
       | none => none
       | some q =>
         match succAfter (siblings m par) q.id_string with
         | none => none
         | some (p, none) => some (extendRange e p 1)
         | some (p, some s) =>
           if s.id_string == e.id_string then some s.position_in_parent
           else some (p.position_in_parent +
             (s.position_in_parent - p.position_in_parent).fdiv 8)) := by
  unfold positionKey
  have h1 : (pr == e.id_string) = false := by
    simp only [beq_eq_false_iff_ne, ne_eq]
    exact hse
  have h2 : (pr == "") = false := by
    simp only [beq_eq_false_iff_ne, ne_eq]
    exact hne
  simp only [h1, Bool.false_eq_true, if_false, h2]

/-! ### Permanent item lemmas -/

theorem ItemExists_iff {m : SyncDataModel} {i : String} :
    ItemExists m i = true ↔ ∃ x ∈ m.entries, x.id_string = i := by
  unfold ItemExists findEntry
  rw [Option.isSome_iff_exists]
  constructor
  · rintro ⟨a, ha⟩
    refine ⟨a, List.mem_of_find?_eq_some ha, ?_⟩
    have hp := List.find?_some ha
    simp only [beq_iff_eq] at hp
    exact hp
  · rintro ⟨x, hx, hxi⟩
    have h2 : (m.entries.find? (fun e => e.id_string == i)) ≠ none := by
      intro hc
      rw [List.find?_eq_none] at hc
      exact hc x hx (by simp [hxi])
    cases hf : m.entries.find? (fun e => e.id_string == i) with
    | none => exact absurd hf h2
    | some a => exact ⟨a, rfl⟩

theorem upsert_of_not_exists {m : SyncDataModel} {e : SyncEntity}
    (h : ItemExists m e.id_string = false) :
    upsert e m.entries = m.entries ++ [e] := by
  unfold upsert
  congr 1
  apply List.filter_eq_self.mpr
  intro a ha
  simp only [bne_iff_ne, ne_eq]
  intro hc
  have : ItemExists m e.id_string = true := ItemExists_iff.mpr ⟨a, ha, hc⟩
  rw [this] at h
  exact Bool.true_eq_false.mp h

theorem CreatePermanentItem_exists {m : SyncDataModel} {spec : PermanentItem}
    (h : ItemExists m (serverTagToId spec.tag) = true) :
    CreatePermanentItem m spec = m := by
  unfold CreatePermanentItem
  simp only [h, if_true]

theorem CreatePermanentItem_new {m : SyncDataModel} {spec : PermanentItem}
    (h : ItemExists m (serverTagToId spec.tag) = false) :
    ∃ pe, CreatePermanentItem m spec = (SaveEntry m pe).1 ∧
      pe.id_string = serverTagToId spec.tag ∧
      pe.sync_type = spec.sync_type ∧
      pe.deleted = false ∧
      pe.server_defined_unique_tag = some spec.tag := by
  unfold CreatePermanentItem
  simp only [h, Bool.false_eq_true, if_false]
  rw [WritePosition_eq, positionKey_noPrev]
  cases hs : siblings m (serverTagToId spec.parent_tag) with
  | nil =>
    simp only [Option.map_some]
    exact ⟨_, rfl, rfl, rfl, rfl, rfl⟩
  | cons f t =>
    simp only [Option.map_some]
    exact ⟨_, rfl, rfl, rfl, rfl, rfl⟩

theorem ItemExists_CreatePermanentItem_mono {m : SyncDataModel} {i : String}
    (spec : PermanentItem) (h : ItemExists m i = true) :
    ItemExists (CreatePermanentItem m spec) i = true := by
  by_cases hx : ItemExists m (serverTagToId spec.tag) = true
  · rw [CreatePermanentItem_exists hx]
    exact h
  · obtain ⟨pe, heq, _, _, _, _⟩ :=
      CreatePermanentItem_new (by simpa using hx)
    rw [heq]
    exact ItemExists_SaveEntry_mono pe h

theorem ItemExists_CreatePermanentItem_self (m : SyncDataModel)
    (spec : PermanentItem) :
    ItemExists (CreatePermanentItem m spec) (serverTagToId spec.tag) = true := by
  by_cases hx : ItemExists m (serverTagToId spec.tag) = true
  · rw [CreatePermanentItem_exists hx]
    exact hx
  · obtain ⟨pe, heq, hid, _, _, _⟩ :=
      CreatePermanentItem_new (by simpa using hx)
    rw [heq, ← hid]
    exact ItemExists_SaveEntry_self m pe

theorem Wf_CreatePermanentItem {m : SyncDataModel} (hw : Wf m)
    (spec : PermanentItem) : Wf (CreatePermanentItem m spec) := by
  by_cases hx : ItemExists m (serverTagToId spec.tag) = true
  · rw [CreatePermanentItem_exists hx]
    exact hw
  · obtain ⟨pe, heq, _, _, _, _⟩ :=
      CreatePermanentItem_new (by simpa using hx)
    rw [heq]
    exact Wf_SaveEntry hw pe

theorem foldCreate_cons (m : SyncDataModel) (s : PermanentItem)
    (ss : List PermanentItem) (types : List SyncType) :
    foldCreate m (s :: ss) types =
      foldCreate (if relevantB types s then CreatePermanentItem m s else m)
        ss types := rfl

theorem ItemExists_foldCreate_mono {i : String} {specs : List PermanentItem}
    {types : List SyncType} :
    ∀ {m : SyncDataModel}, ItemExists m i = true →
      ItemExists (foldCreate m specs types) i = true := by
  induction specs with
  | nil => exact fun h => h
  | cons s ss ih =>
    intro m h
    rw [foldCreate_cons]
    by_cases hr : relevantB types s = true
    · rw [if_pos hr]
      exact ih (ItemExists_CreatePermanentItem_mono s h)
    · rw [if_neg hr]
      exact ih h

theorem foldCreate_creates {specs : List PermanentItem}
    {types : List SyncType} :
    ∀ {m : SyncDataModel} (spec : PermanentItem), spec ∈ specs →
      relevantB types spec = true →
      ItemExists (foldCreate m specs types) (serverTagToId spec.tag) = true := by
  induction specs with
  | nil => intro m spec h; exact absurd h (List.not_mem_nil spec)
  | cons s ss ih =>
    intro m spec hmem hr
    rw [foldCreate_cons]
    rcases List.mem_cons.mp hmem with heq | htail
    · subst heq
      rw [if_pos hr]
      exact ItemExists_foldCreate_mono
        (ItemExists_CreatePermanentItem_self m spec)
    · exact ih spec htail hr

theorem foldCreate_idem {specs : List PermanentItem} {types : List SyncType} :
    ∀ {m : SyncDataModel},
      (∀ spec ∈ specs, relevantB types spec = true →
        ItemExists m (serverTagToId spec.tag) = true) →
      foldCreate m specs types = m := by
  induction specs with
  | nil => intro m _; rfl
  | cons s ss ih =>
    intro m h
    rw [foldCreate_cons]
    by_cases hr : relevantB types s = true
    · rw [if_pos hr, CreatePermanentItem_exists (h s (List.mem_cons_self s ss) hr)]
      exact ih (fun sp hsp hrr => h sp (List.mem_cons_of_mem s hsp) hrr)
    · rw [if_neg hr]
      exact ih (fun sp hsp hrr => h sp (List.mem_cons_of_mem s hsp) hrr)

theorem Wf_foldCreate {specs : List PermanentItem} {types : List SyncType} :
    ∀ {m : SyncDataModel}, Wf m → Wf (foldCreate m specs types) := by
  induction specs with
  | nil => exact fun h => h
  | cons s ss ih =>
    intro m hw
    rw [foldCreate_cons]
    by_cases hr : relevantB types s = true
    · rw [if_pos hr]
      exact ih (Wf_CreatePermanentItem hw s)
    · rw [if_neg hr]
      exact ih hw

theorem CreatePermanentItems_idem (m : SyncDataModel) (types : List SyncType) :
    CreatePermanentItems (CreatePermanentItems m types) types =
      CreatePermanentItems m types := by
  apply foldCreate_idem
  intro spec hs hr
  exact foldCreate_creates spec hs hr

theorem Wf_CreatePermanentItems {m : SyncDataModel} (hw : Wf m)
    (types : List SyncType) : Wf (CreatePermanentItems m types) :=
  Wf_foldCreate hw

/-! ### Change feed lemmas -/

theorem sortVer_perm (l : List SyncEntity) : List.Perm (sortVer l) l :=
  List.perm_insertionSort verLe l

theorem sortVer_sorted (l : List SyncEntity) : List.Sorted verLe (sortVer l) :=
  List.sorted_insertionSort verLe l

instance : IsAntisymm SyncEntity vlt :=
  ⟨fun a b h1 h2 => by
    unfold vlt at h1 h2
    omega⟩

theorem sorted_vlt_of_distinct {l : List SyncEntity}
    (hs : List.Sorted verLe l)
    (hd : l.Pairwise (fun a b => a.version ≠ b.version)) :
    List.Pairwise vlt l :=
  (List.Pairwise.and hs hd).imp (fun h => Nat.lt_of_le_of_ne h.1 h.2)

theorem sortVer_pairwise_vlt {m : SyncDataModel} (hw : Wf m) :
    List.Pairwise vlt (sortVer m.entries) := by
  have hd : (sortVer m.entries).Pairwise (fun a b => a.version ≠ b.version) :=
    List.Pairwise.perm hw.2.1 (sortVer_perm m.entries).symm
      (fun h => Ne.symm h)
  exact sorted_vlt_of_distinct (sortVer_sorted m.entries) hd

theorem newChanges_pairwise_vlt {m : SyncDataModel} (hw : Wf m) (since : Nat) :
    List.Pairwise vlt (newChanges m.entries since) :=
  List.Pairwise.sublist (List.filter_sublist _) (sortVer_pairwise_vlt hw)

theorem mem_newChanges {l : List SyncEntity} {s : Nat} {e : SyncEntity} :
    e ∈ newChanges l s ↔ e ∈ l ∧ s < e.version := by
  unfold newChanges
  rw [List.mem_filter, decide_eq_true_eq, (sortVer_perm l).mem_iff]

theorem le_getLast?_of_pairwise_vlt :
    ∀ {t : List SyncEntity} {g : SyncEntity}, List.Pairwise vlt t →
      t.getLast? = some g → ∀ x ∈ t, x.version ≤ g.version := by
  intro t
  induction t with
  | nil =>
    intro g _ hg
    cases hg
  | cons a u ih =>
    intro g hp hg x hx
    cases u with
    | nil =>
      rw [List.getLast?_singleton] at hg
      cases hg
      rw [List.mem_singleton] at hx
      subst hx
      exact le_refl _
    | cons b v =>
      rw [List.getLast?_cons_cons] at hg
      rcases List.mem_cons.mp hx with hxa | hxu
      · subst hxa
        have hgm : g ∈ b :: v := List.mem_of_getLast?_eq_some hg
        have := (List.pairwise_cons.mp hp).1 _ hgm
        unfold vlt at this
        omega
      · exact ih (List.pairwise_cons.mp hp).2 hg x hxu

theorem cross_take_drop {L : List SyncEntity} {B : Nat}
    (hp : List.Pairwise vlt L) :
    ∀ x ∈ L.take B, ∀ y ∈ L.drop B, x.version < y.version := by
  have h2 : List.Pairwise vlt (L.take B ++ L.drop B) := by
    rw [List.take_append_drop]
    exact hp
  intro x hx y hy
  exact (List.pairwise_append.mp h2).2.2 x hx y hy

theorem filter_split {L : List SyncEntity} {B : Nat} {w : Nat}
    (h1 : ∀ x ∈ L.take B, x.version ≤ w)
    (h2 : ∀ y ∈ L.drop B, w < y.version) :
    L.filter (fun e => decide (w < e.version)) = L.drop B := by
  conv_lhs => rw [← List.take_append_drop B L]
  rw [List.filter_append]
  have ha : (L.take B).filter (fun e => decide (w < e.version)) = [] := by
    rw [List.filter_eq_nil_iff]
    intro a haa
    simp only [decide_eq_true_eq, not_lt]
    exact h1 a haa
  have hb : (L.drop B).filter (fun e => decide (w < e.version)) = L.drop B := by
    rw [List.filter_eq_self]
    intro a haa
    simp only [decide_eq_true_eq]
    exact h2 a haa
  rw [ha, hb, List.nil_append]

theorem GetChanges_empty {m : SyncDataModel} {T : List SyncType} {s : Nat}
    (h : newChanges (CreatePermanentItems m T).entries s = []) :
    GetChangesFromTimestamp m T s = (CreatePermanentItems m T, s, []) := by
  simp only [GetChangesFromTimestamp]
  rw [h]
  rfl

theorem GetChanges_getLast {m : SyncDataModel} {T : List SyncType} {s : Nat}
    {g : SyncEntity}
    (h : ((newChanges (CreatePermanentItems m T).entries s).take
        BATCH_SIZE).getLast? = some g) :
    GetChangesFromTimestamp m T s =
      (CreatePermanentItems m T, g.version,
       ((newChanges (CreatePermanentItems m T).entries s).take
           BATCH_SIZE).filter (typeMatch T)) := by
  simp only [GetChangesFromTimestamp]
  rw [h]

theorem GetChanges_model (m : SyncDataModel) (T : List SyncType) (s : Nat) :
    (GetChangesFromTimestamp m T s).1 = CreatePermanentItems m T := by
  cases hgl : ((newChanges (CreatePermanentItems m T).entries s).take
      BATCH_SIZE).getLast? with
  | none =>
    rw [GetChanges_empty (by
      rcases List.take_eq_nil_iff.mp (List.getLast?_eq_none_iff.mp hgl)
        with h2 | h2
      · exact absurd h2 (by unfold BATCH_SIZE; omega)
      · exact h2)]
  | some g =>
    rw [GetChanges_getLast hgl]

theorem collectChanges_boot (m : SyncDataModel) (T : List SyncType)
    (s fuel : Nat) :
    collectChanges m T s fuel =
      collectChanges (CreatePermanentItems m T) T s fuel := by
  cases fuel with
  | zero => rfl
  | succ f =>
    simp only [collectChanges]
    have h : GetChangesFromTimestamp (CreatePermanentItems m T) T s =
        GetChangesFromTimestamp m T s := by
      simp only [GetChangesFromTimestamp]
      rw [CreatePermanentItems_idem]
    rw [h]

theorem collectChanges_eq {T : List SyncType} :
    ∀ (fuel : Nat) (m : SyncDataModel) (s : Nat),
      Wf m → CreatePermanentItems m T = m →
      (newChanges m.entries s).length ≤ fuel * BATCH_SIZE →
      collectChanges m T s fuel =
        (newChanges m.entries s).filter (typeMatch T) := by
  intro fuel
  induction fuel with
  | zero =>
    intro m s _ _ hlen
    have h0 : newChanges m.entries s = [] := by
      rw [← List.length_eq_zero]
      omega
    rw [h0]
    rfl
  | succ f ih =>
    intro m s hw hcpi hlen
    by_cases hNC : newChanges m.entries s = []
    · simp only [collectChanges]
      rw [GetChanges_empty (by rw [hcpi]; exact hNC)]
      simp only [beq_self_eq_true, if_true]
      rw [hNC]
      rfl
    · have hpw : List.Pairwise vlt (newChanges m.entries s) :=
        newChanges_pairwise_vlt hw s
      have htake : (newChanges m.entries s).take BATCH_SIZE ≠ [] := by
        intro hc
        rcases List.take_eq_nil_iff.mp hc with h2 | h2
        · exact absurd h2 (by unfold BATCH_SIZE; omega)
        · exact hNC h2
      obtain ⟨g, hg⟩ : ∃ g, ((newChanges m.entries s).take
          BATCH_SIZE).getLast? = some g := by
        cases hgl : ((newChanges m.entries s).take BATCH_SIZE).getLast? with
        | none => exact absurd (List.getLast?_eq_none_iff.mp hgl) htake
        | some g => exact ⟨g, rfl⟩
      have hg2 : ((newChanges (CreatePermanentItems m T).entries s).take
          BATCH_SIZE).getLast? = some g := by
        rw [hcpi]
        exact hg
      have hgmem : g ∈ newChanges m.entries s :=
        List.mem_of_mem_take (List.mem_of_getLast?_eq_some hg)
      have hwgt : s < g.version := (mem_newChanges.mp hgmem).2
      simp only [collectChanges]
      rw [GetChanges_getLast hg2]
      have hne2 : (g.version == s) = false := by
        simp only [beq_eq_false_iff_ne, ne_eq]
        omega
      rw [hcpi]
      show (if (g.version == s) = true then []
        else (List.filter (typeMatch T)
            (List.take BATCH_SIZE (newChanges m.entries s))) ++
          collectChanges m T g.version f) =
        List.filter (typeMatch T) (newChanges m.entries s)
      rw [if_neg (by rw [hne2]; exact Bool.false_ne_true)]
      have hstep : newChanges m.entries g.version =
          (newChanges m.entries s).drop BATCH_SIZE := by
        have hsub : newChanges m.entries g.version =
            (newChanges m.entries s).filter
              (fun e => decide (g.version < e.version)) := by
          unfold newChanges
          rw [List.filter_filter]
          apply List.filter_congr
          intro a _
          by_cases hwa : g.version < a.version
          · have hsa : s < a.version := by omega
            simp [hwa, hsa]
          · simp [hwa]
        rw [hsub]
        apply filter_split
        · intro x hx
          exact le_getLast?_of_pairwise_vlt
            (List.Pairwise.sublist (List.take_sublist _ _) hpw) hg x hx
        · intro y hy
          exact cross_take_drop hpw _ (List.mem_of_getLast?_eq_some hg) y hy
      have hlen2 : (newChanges m.entries g.version).length ≤
          f * BATCH_SIZE := by
        rw [hstep, List.length_drop]
        have hmul : (f + 1) * BATCH_SIZE = f * BATCH_SIZE + BATCH_SIZE := by
          ring
        omega
      rw [ih m g.version hw hcpi hlen2, hstep, ← List.filter_append,
        List.take_append_drop]

/-! ### Versioning lemmas -/

theorem assignedVersions_eq :
    ∀ (es : List SyncEntity) (m : SyncDataModel),
      assignedVersions m es =
        (List.range es.length).map (fun i => m.version + i + 1) := by
  intro es
  induction es with
  | nil => intro m; rfl
  | cons e rest ih =>
    intro m
    show (SaveEntry m e).2.version ::
      assignedVersions (SaveEntry m e).1 rest = _
    rw [ih, SaveEntry_version, SaveEntry_clock, List.length_cons,
      List.range_succ_eq_map, List.map_cons, List.map_map]
    congr 1
    apply List.map_congr_left
    intro i _
    show m.version + 1 + i + 1 = m.version + (i + 1) + 1
    omega

theorem assignedVersions_pairwise (m : SyncDataModel) (es : List SyncEntity) :
    List.Pairwise (fun a b => a < b) (assignedVersions m es) := by
  rw [assignedVersions_eq]
  rw [List.pairwise_map]
  exact (List.pairwise_lt_range es.length).imp (fun h => by omega)

theorem saveAll_version :
    ∀ (es : List SyncEntity) (m : SyncDataModel),
      (saveAll m es).version = m.version + es.length := by
  intro es
  induction es with
  | nil => intro m; rfl
  | cons e rest ih =>
    intro m
    show (saveAll (SaveEntry m e).1 rest).version = _
    rw [ih, SaveEntry_clock, List.length_cons]
    omega

theorem stored_version_mono {m : SyncDataModel}
    (hb : ∀ x ∈ m.entries, x.version ≤ m.version)
    (e : SyncEntity) (i : String) {old new : SyncEntity}
    (hold : findEntry m i = some old)
    (hnew : findEntry (SaveEntry m e).1 i = some new) :
    old.version ≤ new.version := by
  by_cases hi : i = e.id_string
  · subst hi
    rw [findEntry_SaveEntry_self] at hnew
    cases hnew
    have := hb old (findEntry_mem hold)
    rw [SaveEntry_version]
    omega
  · rw [findEntry_SaveEntry_ne m e i hi, hold] at hnew
    cases hnew
    exact le_refl _

/-! ### Fresh id and session lemmas -/

theorem length_freshId (taken : List String) :
    (freshId taken).length = maxLen taken + 1 := by
  show ('s' :: List.replicate (maxLen taken) 'x').length = maxLen taken + 1
  rw [List.length_cons, List.length_replicate]

theorem le_maxLen {s : String} {l : List String} (h : s ∈ l) :
    s.length ≤ maxLen l := by
  induction l with
  | nil => cases h
  | cons a t ih =>
    show s.length ≤ max a.length (maxLen t)
    rcases List.mem_cons.mp h with h1 | h1
    · subst h1
      omega
    · have := ih h1
      omega

theorem freshId_ne {taken : List String} {s : String} (h : s ∈ taken) :
    freshId taken ≠ s := by
  intro hc
  have h1 := length_freshId taken
  have h2 := le_maxLen h
  rw [hc] at h1
  omega

theorem sessLookup_cons (q : String × String) (t : Session) (k : String) :
    sessLookup (q :: t) k =
      if q.1 == k then some q.2 else sessLookup t k := by
  unfold sessLookup
  rw [List.find?_cons]
  cases hq : (q.1 == k) with
  | true => simp
  | false => simp

theorem sessHasKey_cons (q : String × String) (t : Session) (k : String) :
    sessHasKey (q :: t) k = ((q.1 == k) || sessHasKey t k) := by
  unfold sessHasKey
  rw [sessLookup_cons]
  cases hq : (q.1 == k) <;> simp

theorem sessLookup_map_replace (t : Session) (k v : String) :
    sessLookup (t.map (fun q => if q.1 == k then (k, v) else q)) k =
      if sessHasKey t k then some v else none := by
  induction t with
  | nil => rfl
  | cons q t ih =>
    rw [List.map_cons]
    cases hq : (q.1 == k) with
    | true =>
      show sessLookup ((k, v) ::
        (t.map (fun q => if q.1 == k then (k, v) else q))) k =
        if sessHasKey (q :: t) k = true then some v else none
      rw [sessLookup_cons, sessHasKey_cons, hq]
      simp
    | false =>
      show sessLookup (q ::
        (t.map (fun q => if q.1 == k then (k, v) else q))) k =
        if sessHasKey (q :: t) k = true then some v else none
      rw [sessLookup_cons, sessHasKey_cons, hq, ih]
      simp [hq]

theorem sessLookup_map_replace_ne (t : Session) (k v k' : String)
    (h : k' ≠ k) :
    sessLookup (t.map (fun q => if q.1 == k then (k, v) else q)) k' =
      sessLookup t k' := by
  induction t with
  | nil => rfl
  | cons q t ih =>
    rw [List.map_cons]
    cases hq : (q.1 == k) with
    | true =>
      show sessLookup ((k, v) ::
        (t.map (fun q => if q.1 == k then (k, v) else q))) k' =
        sessLookup (q :: t) k'
      rw [sessLookup_cons, sessLookup_cons]
      have h1 : ((k, v).1 == k') = false := by
        show (k == k') = false
        simp only [beq_eq_false_iff_ne, ne_eq]
        exact fun hc => h hc.symm
      have h2 : (q.1 == k') = false := by
        have hqe := eq_of_beq hq
        rw [hqe]
        simp only [beq_eq_false_iff_ne, ne_eq]
        exact fun hc => h hc.symm
      rw [h1, h2]
      simp only [Bool.false_eq_true, if_false]
      exact ih
    | false =>
      show sessLookup (q ::
        (t.map (fun q => if q.1 == k then (k, v) else q))) k' =
        sessLookup (q :: t) k'
      rw [sessLookup_cons, sessLookup_cons]
      cases hqk : (q.1 == k') with
      | false =>
        simp only [hqk, Bool.false_eq_true, if_false]
        exact ih
      | true => simp only [hqk, if_true]

theorem sessHasKey_false_lookup {s : Session} {k : String}
    (h : sessHasKey s k = false) : sessLookup s k = none := by
  unfold sessHasKey at h
  cases hf : sessLookup s k with
  | none => rfl
  | some v =>
    rw [hf] at h
    cases h

theorem sessLookup_insert_self (s : Session) (k v : String) :
    sessLookup (sessInsert s k v) k = some v := by
  unfold sessInsert
  by_cases hk : sessHasKey s k = true
  · rw [if_pos hk, sessLookup_map_replace, if_pos hk]
  · rw [if_neg hk]
    unfold sessLookup
    rw [List.find?_append]
    have h1 : s.find? (fun q => q.1 == k) = none := by
      have := sessHasKey_false_lookup (by
        cases hv : sessHasKey s k with
        | false => rfl
        | true => exact absurd hv hk)
      unfold sessLookup at this
      cases hf : s.find? (fun q => q.1 == k) with
      | none => rfl
      | some q =>
        rw [hf] at this
        cases this
    rw [h1]
    simp [List.find?]

theorem sessLookup_insert_ne (s : Session) (k v k' : String) (h : k' ≠ k) :
    sessLookup (sessInsert s k v) k' = sessLookup s k' := by
  unfold sessInsert
  by_cases hk : sessHasKey s k = true
  · rw [if_pos hk]
    exact sessLookup_map_replace_ne s k v k' h
  · rw [if_neg hk]
    unfold sessLookup
    rw [List.find?_append]
    have h2 : ([(k, v)].find? (fun q => q.1 == k')) = none := by
      show List.find? _ [(k, v)] = none
      rw [List.find?_cons]
      have : ((k, v).1 == k') = false := by
        simp only [beq_eq_false_iff_ne, ne_eq]
        exact fun hc => h hc.symm
      rw [this]
      rfl
    rw [h2]
    cases hf : s.find? (fun q => q.1 == k') <;> rfl

theorem sessHasKey_insert_iff {s : Session} {k v k' : String} :
    sessHasKey (sessInsert s k v) k' = true ↔
      (sessHasKey s k' = true ∨ k' = k) := by
  by_cases hkk : k' = k
  · subst hkk
    unfold sessHasKey
    rw [sessLookup_insert_self]
    simp
  · unfold sessHasKey
    rw [sessLookup_insert_ne s k v k' hkk]
    simp [hkk]

theorem sessInsert_length_new {s : Session} {k : String} (v : String)
    (h : sessHasKey s k = false) :
    (sessInsert s k v).length = s.length + 1 := by
  unfold sessInsert
  rw [if_neg (by rw [h]; exact Bool.false_ne_true)]
  rw [List.length_append]
  rfl

theorem sessInsert_length_old {s : Session} {k : String} (v : String)
    (h : sessHasKey s k = true) :
    (sessInsert s k v).length = s.length := by
  unfold sessInsert
  rw [if_pos h, List.length_map]

/-! ### Commit lemmas -/

theorem commitFinish_some {m : SyncDataModel} {e1 : SyncEntity}
    {sess1 : Session} {parent prev : String} {m' : SyncDataModel}
    {sess' : Session} {r : SyncEntity}
    (h : commitFinish m e1 sess1 parent prev = some (m', sess', r)) :
    ItemExists m parent = true ∧ sess' = sess1 ∧
    ∃ e2, WritePosition m e1 parent prev = some e2 ∧
      m' = (SaveEntry m e2).1 ∧ r = (SaveEntry m e2).2 := by
  unfold commitFinish at h
  by_cases hex : ItemExists m parent = true
  · rw [if_neg (by rw [hex]; simp)] at h
    cases hwp : WritePosition m e1 parent prev with
    | none =>
      rw [hwp] at h
      cases h
    | some e2 =>
      rw [hwp] at h
      refine ⟨hex, ?_, e2, rfl, ?_, ?_⟩ <;>
        cases h <;> rfl
  · exfalso
    rw [if_pos (by
      cases hv : ItemExists m parent with
      | false => rfl
      | true => exact absurd hv hex)] at h
    cases h

theorem WritePosition_fields {m : SyncDataModel} {e : SyncEntity}
    {par pr : String} {e2 : SyncEntity}
    (h : WritePosition m e par pr = some e2) :
    e2.id_string = e.id_string ∧ e2.parent_id_string = par ∧
    e2.insert_after_item_id = "" ∧
    e2.originator_client_item_id = e.originator_client_item_id ∧
    e2.originator_cache_guid = e.originator_cache_guid ∧
    e2.sync_type = e.sync_type ∧ e2.deleted = e.deleted := by
  obtain ⟨k, _, he⟩ := WritePosition_some_iff.mp h
  subst he
  exact ⟨rfl, rfl, rfl, rfl, rfl, rfl, rfl⟩

theorem CommitEntry_new_eq (m : SyncDataModel) (p : SyncEntity)
    (guid : String) (sess : Session) (hv : p.version = 0)
    (hex : ItemExists m p.id_string = false) :
    CommitEntry m p guid sess =
      commitFinish m
        { p with
            id_string := freshId (p.id_string ::
              m.entries.map (fun e => e.id_string)),
            originator_client_item_id := p.id_string,
            originator_cache_guid := guid }
        (sessInsert sess p.id_string
          (freshId (p.id_string :: m.entries.map (fun e => e.id_string))))
        (resolveId (sessInsert sess p.id_string
            (freshId (p.id_string :: m.entries.map (fun e => e.id_string))))
          p.parent_id_string)
        (resolveId (sessInsert sess p.id_string
            (freshId (p.id_string :: m.entries.map (fun e => e.id_string))))
          p.insert_after_item_id) := by
  have h1 : (p.version == 0 && !(ItemExists m p.id_string)) = true := by
    simp [hv, hex]
  simp only [CommitEntry, h1, if_true]

theorem CommitEntry_update_eq (m : SyncDataModel) (p : SyncEntity)
    (guid : String) (sess : Session) (base : SyncEntity)
    (hbase : findEntry m p.id_string = some base) :
    CommitEntry m p guid sess =
      commitFinish m
        { p with
            originator_client_item_id := base.originator_client_item_id,
            originator_cache_guid := base.originator_cache_guid }
        sess (resolveId sess p.parent_id_string)
        (resolveId sess p.insert_after_item_id) := by
  have hex : ItemExists m p.id_string = true := by
    unfold ItemExists
    rw [hbase]
    rfl
  have h1 : (p.version == 0 && !(ItemExists m p.id_string)) = false := by
    simp [hex]
  simp only [CommitEntry, h1, Bool.false_eq_true, if_false, hbase]

theorem CommitEntry_model {m : SyncDataModel} {p : SyncEntity} {guid : String}
    {sess : Session} {m' : SyncDataModel} {sess' : Session} {r : SyncEntity}
    (h : CommitEntry m p guid sess = some (m', sess', r)) :
    ∃ e2, m' = (SaveEntry m e2).1 ∧ r = (SaveEntry m e2).2 := by
  unfold CommitEntry at h
  by_cases hn : (p.version == 0 && !(ItemExists m p.id_string)) = true
  · rw [if_pos hn] at h
    obtain ⟨_, _, e2, _, hm, hr⟩ := commitFinish_some h
    exact ⟨e2, hm, hr⟩
  · rw [if_neg hn] at h
    cases hb : findEntry m p.id_string with
    | none =>
      rw [hb] at h
      cases h
    | some base =>
      rw [hb] at h
      obtain ⟨_, _, e2, _, hm, hr⟩ := commitFinish_some h
      exact ⟨e2, hm, hr⟩

theorem Wf_CommitEntry {m : SyncDataModel} {p : SyncEntity} {guid : String}
    {sess : Session} {m' : SyncDataModel} {sess' : Session} {r : SyncEntity}
    (hw : Wf m) (h : CommitEntry m p guid sess = some (m', sess', r)) :
    Wf m' := by
  obtain ⟨e2, hm, _⟩ := CommitEntry_model h
  rw [hm]
  exact Wf_SaveEntry hw e2

theorem ItemExists_CommitEntry_mono {m : SyncDataModel} {p : SyncEntity}
    {guid : String} {sess : Session} {m' : SyncDataModel} {sess' : Session}
    {r : SyncEntity} {i : String}
    (h : CommitEntry m p guid sess = some (m', sess', r))
    (hex : ItemExists m i = true) : ItemExists m' i = true := by
  obtain ⟨e2, hm, _⟩ := CommitEntry_model h
  rw [hm]
  exact ItemExists_SaveEntry_mono e2 hex

/-! ### Request-type congruence and the superset property -/

theorem contains_of_mem {l : List SyncType} {t : SyncType} (h : t ∈ l) :
    l.contains t = true :=
  List.elem_eq_true_of_mem h

theorem mem_of_contains {l : List SyncType} {t : SyncType}
    (h : l.contains t = true) : t ∈ l :=
  List.mem_of_elem_eq_true h

theorem foldCreate_congr {T1 T2 : List SyncType}
    (h : ∀ sp : PermanentItem, relevantB T1 sp = relevantB T2 sp) :
    ∀ (specs : List PermanentItem) (m : SyncDataModel),
      foldCreate m specs T1 = foldCreate m specs T2 := by
  intro specs
  induction specs with
  | nil => intro m; rfl
  | cons s ss ih =>
    intro m
    rw [foldCreate_cons, foldCreate_cons, h s]
    exact ih _

theorem GetChanges_congr {T1 T2 : List SyncType}
    (h : ∀ t, T1.contains t = T2.contains t) (m : SyncDataModel) (s : Nat) :
    GetChangesFromTimestamp m T1 s = GetChangesFromTimestamp m T2 s := by
  have hrel : ∀ sp, relevantB T1 sp = relevantB T2 sp := by
    intro sp
    unfold relevantB
    rw [h]
  have hcpi : CreatePermanentItems m T1 = CreatePermanentItems m T2 :=
    foldCreate_congr hrel PERMANENT_ITEM_SPECS m
  have htm : ∀ l : List SyncEntity,
      l.filter (typeMatch T1) = l.filter (typeMatch T2) := by
    intro l
    apply List.filter_congr
    intro e _
    unfold typeMatch
    rw [h]
  simp only [GetChangesFromTimestamp, hcpi]
  cases hgl : ((newChanges (CreatePermanentItems m T2).entries s).take
      BATCH_SIZE).getLast? with
  | none => rfl
  | some g => rw [htm]

theorem contains_filter_ALL (p : SyncType → Bool) (t : SyncType) :
    (ALL_TYPES.filter p).contains t = p t := by
  cases hpt : p t with
  | true =>
    exact contains_of_mem (List.mem_filter.mpr ⟨by cases t <;> decide, hpt⟩)
  | false =>
    cases hc : (ALL_TYPES.filter p).contains t with
    | false => rfl
    | true =>
      have hmem := (List.mem_filter.mp (mem_of_contains hc)).2
      rw [hpt] at hmem
      cases hmem

theorem C4Superset_congr {A B : List SyncType}
    (h : ∀ t, A.contains t = B.contains t) (st : SyncType)
    (hb : C4Superset st B) : C4Superset st A := by
  simp only [C4Superset] at hb ⊢
  rw [GetChanges_congr h]
  exact hb

set_option maxRecDepth 4000 in
theorem C4_superset_all_masks :
    ∀ (st : SyncType) (b1 b2 b3 b4 b5 b6 b7 : Bool),
      (ALL_TYPES.filter (maskFun b1 b2 b3 b4 b5 b6 b7)).contains st = true →
      b1 = true →
      C4Superset st (ALL_TYPES.filter (maskFun b1 b2 b3 b4 b5 b6 b7)) := by
  decide

/-! ### Session dichotomy and batch commits -/

theorem CommitEntry_session_dichotomy {m : SyncDataModel} {p : SyncEntity}
    {guid : String} {sess : Session} {m' : SyncDataModel} {sess' : Session}
    {r : SyncEntity}
    (h : CommitEntry m p guid sess = some (m', sess', r)) :
    (r.id_string = p.id_string ∧ sess' = sess) ∨
    (r.id_string ≠ p.id_string ∧
      sess' = sessInsert sess p.id_string r.id_string) := by
  by_cases hn : (p.version == 0 && !(ItemExists m p.id_string)) = true
  · right
    have hv : p.version = 0 := by
      have := (Bool.and_eq_true _ _).mp hn
      simpa using this.1
    have hex : ItemExists m p.id_string = false := by
      have := (Bool.and_eq_true _ _).mp hn
      simpa using this.2
    rw [CommitEntry_new_eq m p guid sess hv hex] at h
    obtain ⟨_, hsess, e2, hwp, _, hr⟩ := commitFinish_some h
    have hid := (WritePosition_fields hwp).1
    have hrid : r.id_string =
        freshId (p.id_string :: m.entries.map (fun e => e.id_string)) := by
      rw [hr]
      show (SaveEntry m e2).2.id_string = _
      rw [SaveEntry_id, hid]
    constructor
    · rw [hrid]
      exact freshId_ne (List.mem_cons_self _ _)
    · rw [hsess, hrid]
  · left
    unfold CommitEntry at h
    rw [if_neg hn] at h
    cases hb : findEntry m p.id_string with
    | none =>
      rw [hb] at h
      cases h
    | some base =>
      rw [hb] at h
      obtain ⟨_, hsess, e2, hwp, _, hr⟩ := commitFinish_some h
      have hid := (WritePosition_fields hwp).1
      constructor
      · rw [hr]
        show (SaveEntry m e2).2.id_string = _
        rw [SaveEntry_id, hid]
      · exact hsess

theorem CommitBatch_cons {m : SyncDataModel} {p : SyncEntity}
    {rest : List SyncEntity} {guid : String} {sess : Session}
    {m' : SyncDataModel} {sess' : Session} {rs : List SyncEntity}
    (h : CommitBatch m (p :: rest) guid sess = some (m', sess', rs)) :
    ∃ m1 s1 r rs', CommitEntry m p guid sess = some (m1, s1, r) ∧
      CommitBatch m1 rest guid s1 = some (m', sess', rs') ∧
      rs = r :: rs' := by
  cases hc : CommitEntry m p guid sess with
  | none =>
    unfold CommitBatch at h
    rw [hc] at h
    cases h
  | some q =>
    obtain ⟨m1, s1, r⟩ := q
    unfold CommitBatch at h
    rw [hc] at h
    dsimp only at h
    cases hb : CommitBatch m1 rest guid s1 with
    | none =>
      rw [hb] at h
      cases h
    | some q2 =>
      obtain ⟨m2, s2, rs2⟩ := q2
      rw [hb] at h
      dsimp only at h
      cases h
      exact ⟨m1, s1, r, rs2, rfl, hb, rfl⟩

theorem CommitBatch_session_length :
    ∀ {ps : List SyncEntity} {m : SyncDataModel} {guid : String}
      {sess : Session} {m' : SyncDataModel} {sess' : Session}
      {rs : List SyncEntity},
      CommitBatch m ps guid sess = some (m', sess', rs) →
      (((ps.zip rs).filter (fun q => q.2.id_string != q.1.id_string)).map
        (fun q => q.1.id_string)).Nodup →
      (∀ q ∈ (ps.zip rs).filter (fun q => q.2.id_string != q.1.id_string),
        sessHasKey sess q.1.id_string = false) →
      sess'.length = sess.length +
        ((ps.zip rs).filter (fun q => q.2.id_string != q.1.id_string)).length := by
  intro ps
  induction ps with
  | nil =>
    intro m guid sess m' sess' rs h _ _
    unfold CommitBatch at h
    cases h
    rfl
  | cons p rest ih =>
    intro m guid sess m' sess' rs h hnd hfree
    obtain ⟨m1, s1, r, rs', hc, hb, hrs⟩ := CommitBatch_cons h
    subst hrs
    rw [List.zip_cons_cons, List.filter_cons] at hnd hfree ⊢
    rcases CommitEntry_session_dichotomy hc with ⟨hideq, hsess⟩ | ⟨hidne, hsess⟩
    · have hcond : ((p, r).2.id_string != (p, r).1.id_string) = false := by
        simp [hideq]
      rw [hcond] at hnd hfree ⊢
      simp only [Bool.false_eq_true, if_false] at hnd hfree ⊢
      subst hsess
      exact ih hb hnd hfree
    · have hcond : ((p, r).2.id_string != (p, r).1.id_string) = true := by
        simp [hidne]
      rw [hcond] at hnd hfree ⊢
      simp only [if_true] at hnd hfree ⊢
      rw [List.map_cons] at hnd
      obtain ⟨hpnotin, hndtail⟩ := List.nodup_cons.mp hnd
      have hkfree : sessHasKey sess p.id_string = false :=
        hfree (p, r) (List.mem_cons_self _ _)
      have hlen1 : s1.length = sess.length + 1 := by
        rw [hsess]
        exact sessInsert_length_new _ hkfree
      have hfree2 : ∀ q ∈ (rest.zip rs').filter
          (fun q => q.2.id_string != q.1.id_string),
          sessHasKey s1 q.1.id_string = false := by
        intro q hq
        have hne : q.1.id_string ≠ (p, r).1.id_string := by
          intro hce
          apply hpnotin
          exact hce ▸ List.mem_map_of_mem _ hq
        have hqf := hfree q (List.mem_cons_of_mem _ hq)
        rw [hsess]
        cases hv : sessHasKey (sessInsert sess p.id_string r.id_string)
            q.1.id_string with
        | false => rfl
        | true =>
          rcases sessHasKey_insert_iff.mp hv with h2 | h2
          · rw [hqf] at h2
            cases h2
          · exact absurd h2 hne
      rw [ih hb hndtail hfree2, hlen1, List.length_cons]
      omega

/-! ### Commit path normal forms -/

theorem CommitEntry_new_facts {m : SyncDataModel} {p : SyncEntity}
    {guid : String} {sess : Session} {m' : SyncDataModel} {sess' : Session}
    {r : SyncEntity}
    (hv : p.version = 0) (hex : ItemExists m p.id_string = false)
    (h : CommitEntry m p guid sess = some (m', sess', r)) :
    r.id_string =
      freshId (p.id_string :: m.entries.map (fun e => e.id_string)) ∧
    r.id_string ≠ p.id_string ∧
    r.originator_client_item_id = p.id_string ∧
    r.originator_cache_guid = guid ∧
    r.version = m.version + 1 ∧ m'.version = m.version + 1 ∧
    sess' = sessInsert sess p.id_string r.id_string := by
  rw [CommitEntry_new_eq m p guid sess hv hex] at h
  obtain ⟨_, hsess, e2, hwp, hm, hr⟩ := commitFinish_some h
  obtain ⟨hid, _, _, hoi, hog, _, _⟩ := WritePosition_fields hwp
  have hrid : r.id_string =
      freshId (p.id_string :: m.entries.map (fun e => e.id_string)) := by
    rw [hr, show (SaveEntry m e2).2.id_string = e2.id_string from rfl, hid]
  refine ⟨hrid, ?_, ?_, ?_, ?_, ?_, ?_⟩
  · rw [hrid]
    exact freshId_ne (List.mem_cons_self _ _)
  · rw [hr, show (SaveEntry m e2).2.originator_client_item_id =
      e2.originator_client_item_id from rfl, hoi]
  · rw [hr, show (SaveEntry m e2).2.originator_cache_guid =
      e2.originator_cache_guid from rfl, hog]
  · rw [hr]
    exact SaveEntry_version m e2
  · rw [hm]
    exact SaveEntry_clock m e2
  · rw [hsess, hrid]

theorem CommitEntry_update_facts {m : SyncDataModel} {p : SyncEntity}
    {guid : String} {sess : Session} {m' : SyncDataModel} {sess' : Session}
    {r stored : SyncEntity}
    (hst : findEntry m p.id_string = some stored)
    (h : CommitEntry m p guid sess = some (m', sess', r)) :
    r.id_string = p.id_string ∧
    r.originator_client_item_id = stored.originator_client_item_id ∧
    r.originator_cache_guid = stored.originator_cache_guid ∧
    r.version = m.version + 1 ∧ m'.version = m.version + 1 ∧
    sess' = sess ∧
    findEntry m' p.id_string = some r := by
  rw [CommitEntry_update_eq m p guid sess stored hst] at h
  obtain ⟨_, hsess, e2, hwp, hm, hr⟩ := commitFinish_some h
  obtain ⟨hid, _, _, hoi, hog, _, _⟩ := WritePosition_fields hwp
  have hrid : r.id_string = p.id_string := by
    rw [hr, show (SaveEntry m e2).2.id_string = e2.id_string from rfl, hid]
  refine ⟨hrid, ?_, ?_, ?_, ?_, hsess, ?_⟩
  · rw [hr, show (SaveEntry m e2).2.originator_client_item_id =
      e2.originator_client_item_id from rfl, hoi]
  · rw [hr, show (SaveEntry m e2).2.originator_cache_guid =
      e2.originator_cache_guid from rfl, hog]
  · rw [hr]
    exact SaveEntry_version m e2
  · rw [hm]
    exact SaveEntry_clock m e2
  · rw [hm, hr]
    have h2 : p.id_string = e2.id_string := by
      rw [hid]
    rw [h2]
    exact findEntry_SaveEntry_self m e2

theorem CommitEntry_parent {m : SyncDataModel} {p : SyncEntity}
    {guid : String} {sess : Session} {m' : SyncDataModel} {sess' : Session}
    {r : SyncEntity}
    (h : CommitEntry m p guid sess = some (m', sess', r)) :
    r.parent_id_string = resolveId sess' p.parent_id_string := by
  by_cases hn : (p.version == 0 && !(ItemExists m p.id_string)) = true
  · have hv : p.version = 0 := by
      have := (Bool.and_eq_true _ _).mp hn
      simpa using this.1
    have hex : ItemExists m p.id_string = false := by
      have := (Bool.and_eq_true _ _).mp hn
      simpa using this.2
    rw [CommitEntry_new_eq m p guid sess hv hex] at h
    obtain ⟨_, hsess, e2, hwp, _, hr⟩ := commitFinish_some h
    have hpar := (WritePosition_fields hwp).2.1
    rw [hr, show (SaveEntry m e2).2.parent_id_string =
      e2.parent_id_string from rfl, hpar, hsess]
  · unfold CommitEntry at h
    rw [if_neg hn] at h
    cases hb : findEntry m p.id_string with
    | none =>
      rw [hb] at h
      cases h
    | some base =>
      rw [hb] at h
      obtain ⟨_, hsess, e2, hwp, _, hr⟩ := commitFinish_some h
      have hpar := (WritePosition_fields hwp).2.1
      rw [hr, show (SaveEntry m e2).2.parent_id_string =
        e2.parent_id_string from rfl, hpar, hsess]

theorem CommitEntry_stored {m : SyncDataModel} {p : SyncEntity}
    {guid : String} {sess : Session} {m' : SyncDataModel} {sess' : Session}
    {r : SyncEntity}
    (h : CommitEntry m p guid sess = some (m', sess', r)) :
    findEntry m' r.id_string = some r := by
  obtain ⟨e2, hm, hr⟩ := CommitEntry_model h
  rw [hm, hr, show (SaveEntry m e2).2.id_string = e2.id_string from rfl]
  exact findEntry_SaveEntry_self m e2

/-! ### Claim theorems: commit reconciler -/

/-- C1: committing a proposed item that carries version zero and no
pre-existing server id returns an item whose id differs from the
client-proposed id, whose `originator_client_item_id` equals the proposed
id, whose `originator_cache_guid` equals the committing client's guid, and
whose version strictly exceeds the global watermark observed before the
commit; afterwards the session maps the client-proposed id to the new
server id (and the new item is stored under the new id). -/
theorem C1_commit_new_item {m : SyncDataModel} {p : SyncEntity}
    {guid : String} {sess : Session} {m' : SyncDataModel} {sess' : Session}
    {r : SyncEntity}
    (hv : p.version = 0) (hex : ItemExists m p.id_string = false)
    (h : CommitEntry m p guid sess = some (m', sess', r)) :
    r.id_string ≠ p.id_string ∧
    r.originator_client_item_id = p.id_string ∧
    r.originator_cache_guid = guid ∧
    m.version < r.version ∧
    sessLookup sess' p.id_string = some r.id_string ∧
    findEntry m' r.id_string = some r := by
  obtain ⟨hrid, hne, hoi, hog, hver, _, hsess⟩ :=
    CommitEntry_new_facts hv hex h
  refine ⟨hne, hoi, hog, ?_, ?_, CommitEntry_stored h⟩
  · omega
  · rw [hsess]
    exact sessLookup_insert_self sess p.id_string r.id_string

/-- Witness: the commit of the brand-new Foo proposal exhibits every
clause of the new-item commit contract. -/
theorem C1_commit_new_item_witness :
    wProtoFoo.version = 0 ∧
    ItemExists wBootModel wProtoFoo.id_string = false ∧
    CommitEntry wBootModel wProtoFoo guid1 [] =
      some (wCommit1.1, wCommit1.2.1, wCommit1.2.2) ∧
    (wCommit1.2.2.id_string ≠ wProtoFoo.id_string ∧
     wCommit1.2.2.originator_client_item_id = wProtoFoo.id_string ∧
     wCommit1.2.2.originator_cache_guid = guid1 ∧
     wBootModel.version < wCommit1.2.2.version ∧
     sessLookup wCommit1.2.1 wProtoFoo.id_string =
       some wCommit1.2.2.id_string ∧
     findEntry wCommit1.1 wCommit1.2.2.id_string = some wCommit1.2.2) := by
  have hcom : CommitEntry wBootModel wProtoFoo guid1 [] =
      some (wCommit1.1, wCommit1.2.1, wCommit1.2.2) := by decide
  exact ⟨by decide, by decide, hcom,
    C1_commit_new_item (by decide) (by decide) hcom⟩

/-- C7: committing an update to an item already present in the store
(referencing its server id, from any client guid) preserves the item's id
and both originator fields as currently stored, strictly increases its
version, and overwrites the stored state under the same id. -/
theorem C7_commit_update_preserves_identity {m : SyncDataModel}
    {p : SyncEntity} {guid : String} {sess : Session} {m' : SyncDataModel}
    {sess' : Session} {r stored : SyncEntity}
    (hw : Wf m)
    (hst : findEntry m p.id_string = some stored)
    (h : CommitEntry m p guid sess = some (m', sess', r)) :
    r.id_string = p.id_string ∧
    r.originator_client_item_id = stored.originator_client_item_id ∧
    r.originator_cache_guid = stored.originator_cache_guid ∧
    stored.version < r.version ∧
    findEntry m' p.id_string = some r := by
  obtain ⟨hrid, hoi, hog, hver, _, _, hfind⟩ :=
    CommitEntry_update_facts hst h
  have hsb := (hw.2.2 stored (findEntry_mem hst)).2
  exact ⟨hrid, hoi, hog, by omega, hfind⟩

/-- Witness: re-committing the stored Foo item from a second client
preserves its id and originator fields and bumps its version. -/
theorem C7_commit_update_witness :
    Wf wCommit2.1 ∧
    findEntry wCommit2.1 wProtoFooUpd.id_string = some wCommit1.2.2 ∧
    CommitEntry wCommit2.1 wProtoFooUpd guid2 [] =
      some (wCommit3.1, wCommit3.2.1, wCommit3.2.2) ∧
    (wCommit3.2.2.id_string = wProtoFooUpd.id_string ∧
     wCommit3.2.2.originator_client_item_id =
       wCommit1.2.2.originator_client_item_id ∧
     wCommit3.2.2.originator_cache_guid =
       wCommit1.2.2.originator_cache_guid ∧
     wCommit1.2.2.version < wCommit3.2.2.version ∧
     findEntry wCommit3.1 wProtoFooUpd.id_string = some wCommit3.2.2) := by
  have hst : findEntry wCommit2.1 wProtoFooUpd.id_string =
      some wCommit1.2.2 := by decide
  have hcom : CommitEntry wCommit2.1 wProtoFooUpd guid2 [] =
      some (wCommit3.1, wCommit3.2.1, wCommit3.2.2) := by decide
  exact ⟨by decide, hst, hcom,
    C7_commit_update_preserves_identity (by decide) hst hcom⟩

/-- C8: within one batch sharing a session, committing a new item A and
then an item B whose parent references A's client-proposed id stores and
returns B with A's server-assigned id as parent; a parent_id that is not
a session key is used as given. -/
theorem C8_parent_resolution :
    (∀ (m : SyncDataModel) (p1 p2 : SyncEntity) (g1 g2 : String)
       (sess : Session) (m1 : SyncDataModel) (s1 : Session) (r1 : SyncEntity)
       (m2 : SyncDataModel) (s2 : Session) (r2 : SyncEntity),
       p1.version = 0 → ItemExists m p1.id_string = false →
       CommitEntry m p1 g1 sess = some (m1, s1, r1) →
       p2.parent_id_string = p1.id_string →
       p2.id_string ≠ p1.id_string →
       CommitEntry m1 p2 g2 s1 = some (m2, s2, r2) →
       r2.parent_id_string = r1.id_string ∧
       findEntry m2 r2.id_string = some r2) ∧
    (∀ (m : SyncDataModel) (p : SyncEntity) (guid : String) (sess : Session)
       (m' : SyncDataModel) (sess' : Session) (r : SyncEntity),
       sessHasKey sess p.parent_id_string = false →
       p.parent_id_string ≠ p.id_string →
       CommitEntry m p guid sess = some (m', sess', r) →
       r.parent_id_string = p.parent_id_string) := by
  constructor
  · intro m p1 p2 g1 g2 sess m1 s1 r1 m2 s2 r2 hv hex h1 hpar hne h2
    obtain ⟨_, _, _, _, _, _, hsess1⟩ := CommitEntry_new_facts hv hex h1
    have hlook1 : sessLookup s1 p1.id_string = some r1.id_string := by
      rw [hsess1]
      exact sessLookup_insert_self sess p1.id_string r1.id_string
    have hp2 := CommitEntry_parent h2
    have hlook2 : sessLookup s2 p1.id_string = some r1.id_string := by
      rcases CommitEntry_session_dichotomy h2 with ⟨_, hs2⟩ | ⟨_, hs2⟩
      · rw [hs2]
        exact hlook1
      · rw [hs2, sessLookup_insert_ne s1 p2.id_string r2.id_string
          p1.id_string (fun hc => hne hc.symm)]
        exact hlook1
    refine ⟨?_, CommitEntry_stored h2⟩
    rw [hp2, hpar]
    unfold resolveId
    rw [hlook2]
    rfl
  · intro m p guid sess m' sess' r hnk hpp h
    have hp := CommitEntry_parent h
    have hlook : sessLookup sess' p.parent_id_string = none := by
      rcases CommitEntry_session_dichotomy h with ⟨_, hs⟩ | ⟨_, hs⟩
      · rw [hs]
        exact sessHasKey_false_lookup hnk
      · rw [hs, sessLookup_insert_ne sess p.id_string r.id_string
          p.parent_id_string hpp]
        exact sessHasKey_false_lookup hnk
    rw [hp]
    unfold resolveId
    rw [hlook]
    rfl

/-- Witness: Bar's parent reference to the client-proposed id Foo
resolves to Foo's server-assigned id; an unmapped parent id is used as
given. -/
theorem C8_parent_resolution_witness :
    (wCommit2.2.2.parent_id_string = wCommit1.2.2.id_string ∧
     findEntry wCommit2.1 wCommit2.2.2.id_string = some wCommit2.2.2) ∧
    wCommit1.2.2.parent_id_string = wProtoFoo.parent_id_string :=
  ⟨C8_parent_resolution.1 wBootModel wProtoFoo wProtoBar guid1 guid1 []
     wCommit1.1 wCommit1.2.1 wCommit1.2.2 wCommit2.1 wCommit2.2.1
     wCommit2.2.2 (by decide) (by decide) (by decide) (by decide)
     (by decide) (by decide),
   C8_parent_resolution.2 wBootModel wProtoFoo guid1 [] wCommit1.1
     wCommit1.2.1 wCommit1.2.2 (by decide) (by decide) (by decide)⟩

/-- C10: committing an update to an already-existing item leaves the
commit session unchanged; a commit of a new item adds exactly the one
mapping for its client id; and over a whole batch the session grows by
exactly the number of new items committed (a commit is of a new item
precisely when its returned id differs from the proposed id), provided
the new items' client ids are distinct and not already session keys. -/
theorem C10_session_growth :
    (∀ (m : SyncDataModel) (p : SyncEntity) (guid : String) (sess : Session)
       (m' : SyncDataModel) (sess' : Session) (r stored : SyncEntity),
       findEntry m p.id_string = some stored →
       CommitEntry m p guid sess = some (m', sess', r) →
       sess' = sess) ∧
    (∀ (m : SyncDataModel) (p : SyncEntity) (guid : String) (sess : Session)
       (m' : SyncDataModel) (sess' : Session) (r : SyncEntity),
       p.version = 0 → ItemExists m p.id_string = false →
       CommitEntry m p guid sess = some (m', sess', r) →
       sess' = sessInsert sess p.id_string r.id_string ∧
       (sessHasKey sess p.id_string = false →
         sess'.length = sess.length + 1)) ∧
    (∀ (ps : List SyncEntity) (m : SyncDataModel) (guid : String)
       (sess : Session) (m' : SyncDataModel) (sess' : Session)
       (rs : List SyncEntity),
       CommitBatch m ps guid sess = some (m', sess', rs) →
       (((ps.zip rs).filter (fun q => q.2.id_string != q.1.id_string)).map
         (fun q => q.1.id_string)).Nodup →
       (∀ q ∈ (ps.zip rs).filter (fun q => q.2.id_string != q.1.id_string),
         sessHasKey sess q.1.id_string = false) →
       sess'.length = sess.length +
         ((ps.zip rs).filter
           (fun q => q.2.id_string != q.1.id_string)).length) := by
  refine ⟨?_, ?_, ?_⟩
  · intro m p guid sess m' sess' r stored hst h
    exact (CommitEntry_update_facts hst h).2.2.2.2.2.1
  · intro m p guid sess m' sess' r hv hex h
    obtain ⟨_, _, _, _, _, _, hsess⟩ := CommitEntry_new_facts hv hex h
    refine ⟨hsess, ?_⟩
    intro hfree
    rw [hsess]
    exact sessInsert_length_new _ hfree
  · intro ps m guid sess m' sess' rs h hnd hfree
    exact CommitBatch_session_length h hnd hfree

/-- Witness: the fixture update commit leaves its session empty, the
fixture new-item commit adds exactly one mapping, and the two-proposal
batch grows its session by its two new items. -/
theorem C10_session_growth_witness :
    wCommit3.2.1 = ([] : Session) ∧
    wCommit1.2.1 =
      sessInsert [] wProtoFoo.id_string wCommit1.2.2.id_string ∧
    wCommit1.2.1.length = ([] : Session).length + 1 ∧
    wBatch.2.1.length = ([] : Session).length +
      (([wProtoFoo, wProtoBar].zip wBatch.2.2).filter
        (fun q => q.2.id_string != q.1.id_string)).length := by
  have h2 := C10_session_growth.2.1 wBootModel wProtoFoo guid1 []
    wCommit1.1 wCommit1.2.1 wCommit1.2.2 (by decide) (by decide) (by decide)
  exact ⟨C10_session_growth.1 wCommit2.1 wProtoFooUpd guid2 [] wCommit3.1
      wCommit3.2.1 wCommit3.2.2 wCommit1.2.2 (by decide) (by decide),
    h2.1, h2.2 (by decide),
    C10_session_growth.2.2 [wProtoFoo, wProtoBar] wBootModel guid1 []
      wBatch.1 wBatch.2.1 wBatch.2.2 (by decide) (by decide) (by decide)⟩

/-! ### Claim theorems: sibling positioning -/

/-- C5 (amended): the position allocator works over the current
non-deleted children of the parent including the moving item itself, in
(position, id) order: an empty parent yields key 0; a head insert yields
the first child's key minus 2^20 when that child is not the moving item,
and exactly the moving item's current key when it is; a predecessor that
is the last child (and not the moving item) yields its key plus 2^20; a
predecessor equal to the moving item is treated as no predecessor; and
when the moving item is already the successor of the requested
predecessor, its identical current key is reproduced. -/
theorem C5_sibling_position_cases (m : SyncDataModel) (e : SyncEntity)
    (par : String) :
    (siblings m par = [] → positionKey m e par "" = some 0) ∧
    (∀ f rest, siblings m par = f :: rest → f.id_string ≠ e.id_string →
      positionKey m e par "" = some (f.position_in_parent - GAP)) ∧
    (∀ f rest, siblings m par = f :: rest → f.id_string = e.id_string →
      positionKey m e par "" = some f.position_in_parent) ∧
    (positionKey m e par e.id_string = positionKey m e par "") ∧
    (∀ pr p2, pr ≠ "" → pr ≠ e.id_string →
      (findEntry m pr).isSome = true →
      succAfter (siblings m par) pr = some (p2, none) →
      p2.id_string ≠ e.id_string →
      positionKey m e par pr = some (p2.position_in_parent + GAP)) ∧
    (∀ pr p2 s2, pr ≠ "" → pr ≠ e.id_string →
      (findEntry m pr).isSome = true →
      succAfter (siblings m par) pr = some (p2, some s2) →
      s2.id_string = e.id_string →
      positionKey m e par pr = some s2.position_in_parent) := by
  refine ⟨?_, ?_, ?_, positionKey_prev_self m e par, ?_, ?_⟩
  · intro hnil
    rw [positionKey_noPrev, hnil]
  · intro f rest hcons hfne
    rw [positionKey_noPrev, hcons]
    show some (extendRange e f (-1)) = some (f.position_in_parent - GAP)
    unfold extendRange
    have hb : (f.id_string == e.id_string) = false := by
      simp only [beq_eq_false_iff_ne, ne_eq]
      exact hfne
    rw [hb]
    simp only [Bool.false_eq_true, if_false]
    congr 1
  · intro f rest hcons hfeq
    rw [positionKey_noPrev, hcons]
    show some (extendRange e f (-1)) = some f.position_in_parent
    unfold extendRange
    have hb : (f.id_string == e.id_string) = true := by
      simp [hfeq]
    rw [hb]
    simp
  · intro pr p2 hne hse hfind hsucc hp2
    obtain ⟨q, hq⟩ := Option.isSome_iff_exists.mp hfind
    rw [positionKey_prev m e par pr hne hse]
    simp only [hq, findEntry_id hq, hsucc]
    unfold extendRange
    have hp2b : (p2.id_string == e.id_string) = false := by
      simp only [beq_eq_false_iff_ne, ne_eq]
      exact hp2
    rw [hp2b]
    simp only [Bool.false_eq_true, if_false]
    congr 1
  · intro pr p2 s2 hne hse hfind hsucc hs2
    obtain ⟨q, hq⟩ := Option.isSome_iff_exists.mp hfind
    rw [positionKey_prev m e par pr hne hse]
    simp only [hq, findEntry_id hq, hsucc]
    have hs2b : (s2.id_string == e.id_string) = true := by
      simp [hs2]
    rw [hs2b]
    simp

/-- Witness: the amended sibling-position cases at the repository test
fixture: empty parent, head insert, head re-insert of the first child,
predecessor equal to the moving item, tail insert, and re-placing the
item that already follows the requested predecessor. -/
theorem C5_sibling_position_witness :
    positionKey testPosModel (posEntity "q") "E" "" = some 0 ∧
    positionKey testPosModel (posEntity "new") "X" "" =
      some (entA.position_in_parent - GAP) ∧
    positionKey testPosModel (posEntity "a") "X" "" =
      some entA.position_in_parent ∧
    positionKey testPosModel (posEntity "new") "X" "new" =
      positionKey testPosModel (posEntity "new") "X" "" ∧
    positionKey testPosModel (posEntity "new") "X" "c" =
      some (entC.position_in_parent + GAP) ∧
    positionKey testPosModel (posEntity "b") "X" "a" =
      some entB.position_in_parent := by
  have h1 := C5_sibling_position_cases testPosModel (posEntity "q") "E"
  have h2 := C5_sibling_position_cases testPosModel (posEntity "new") "X"
  have h3 := C5_sibling_position_cases testPosModel (posEntity "a") "X"
  have h4 := C5_sibling_position_cases testPosModel (posEntity "b") "X"
  exact ⟨h1.1 (by decide),
    h2.2.1 entA [entB, entC] (by decide) (by decide),
    h3.2.2.1 entA [entB, entC] (by decide) (by decide),
    h2.2.2.2.1,
    h2.2.2.2.2.1 "c" entC (by decide) (by decide) (by decide) (by decide)
      (by decide),
    h4.2.2.2.2.2 "a" entA entB (by decide) (by decide) (by decide)
      (by decide) (by decide)⟩

/-- C5 counterexample: the claim reads the sibling sequence as excluding
the moving item, so re-placing the only child of parent Y at the head
should see no siblings and produce key 0; the behavior pinned by the
repository test instead reproduces the item's current key 10000. -/
theorem C5_counterexample :
    compute_position_spec testPosModel (posEntity "s") "Y" "" = some 0 ∧
    positionKey testPosModel (posEntity "s") "Y" "" = some 10000 ∧
    (10000 : Int) ≠ 0 := by
  refine ⟨by decide, by decide, by decide⟩

/-- C6 (amended): when the requested predecessor sits at key P with a
current successor sibling at key S (the successor not being the moving
item), the resulting key is P + (S - P) / 8 in floor division — not the
midpoint P + (S - P) / 2 — and it lies strictly between P and S whenever
S - P is at least 8. -/
theorem C6_between_siblings (m : SyncDataModel) (e : SyncEntity)
    (par pr : String) (p2 s2 : SyncEntity)
    (hne : pr ≠ "") (hse : pr ≠ e.id_string)
    (hfind : (findEntry m pr).isSome = true)
    (hsucc : succAfter (siblings m par) pr = some (p2, some s2))
    (hs2 : s2.id_string ≠ e.id_string) :
    positionKey m e par pr =
      some (p2.position_in_parent +
        (s2.position_in_parent - p2.position_in_parent).fdiv 8) ∧
    (p2.position_in_parent + 8 ≤ s2.position_in_parent →
      p2.position_in_parent <
        p2.position_in_parent +
          (s2.position_in_parent - p2.position_in_parent).fdiv 8 ∧
      p2.position_in_parent +
          (s2.position_in_parent - p2.position_in_parent).fdiv 8 <
        s2.position_in_parent) := by
  constructor
  · obtain ⟨q, hq⟩ := Option.isSome_iff_exists.mp hfind
    rw [positionKey_prev m e par pr hne hse]
    simp only [hq, findEntry_id hq, hsucc]
    have hs2b : (s2.id_string == e.id_string) = false := by
      simp only [beq_eq_false_iff_ne, ne_eq]
      exact hs2
    rw [hs2b]
    simp
  · intro hgap
    have hfd : (s2.position_in_parent - p2.position_in_parent).fdiv 8 =
        (s2.position_in_parent - p2.position_in_parent) / 8 :=
      Int.fdiv_eq_ediv _ (by omega)
    rw [hfd]
    omega

/-- Witness: inserting between the fixture children a (key 1000) and b
(key 1800) produces key 1100, strictly between the two. -/
theorem C6_between_siblings_witness :
    positionKey testPosModel (posEntity "new") "X" "a" = some 1100 ∧
    entA.position_in_parent <
      entA.position_in_parent +
        (entB.position_in_parent - entA.position_in_parent).fdiv 8 ∧
    entA.position_in_parent +
        (entB.position_in_parent - entA.position_in_parent).fdiv 8 <
      entB.position_in_parent := by
  have h := C6_between_siblings testPosModel (posEntity "new") "X" "a"
    entA entB (by decide) (by decide) (by decide) (by decide) (by decide)
  exact ⟨h.1.trans (by decide), (h.2 (by decide)).1, (h.2 (by decide)).2⟩

/-- C6 counterexample: between predecessor key 1000 and successor key
1800 the claim demands the midpoint 1400; the behavior pinned by the
repository test (testWritePosition) produces 1100. -/
theorem C6_counterexample :
    compute_position_spec testPosModel (posEntity "new") "X" "a" =
      some 1400 ∧
    positionKey testPosModel (posEntity "new") "X" "a" = some 1100 ∧
    (1100 : Int) ≠ 1400 := by
  refine ⟨by decide, by decide, by decide⟩

/-- C2 (amended): the pagination contract of the change feed over any
well-formed store: the store is mutated only by permanent-item
materialization; the returned items are the type-matching (or deleted)
entries of the at-most-BATCH_SIZE oldest change-log entries newer than
`since`, exactly those matching entries with version in
(`since`, watermark], in strictly ascending version order; the watermark
is `since` exactly when the log is exhausted and otherwise the version of
the last batch entry (returned or not); and iterating to a fixpoint of
the watermark yields the whole matching log suffix. -/
theorem C2_change_feed_pagination (m : SyncDataModel) (T : List SyncType)
    (s : Nat) (hw : Wf m) : GetChangesOk m T s := by
  have hw1 : Wf (CreatePermanentItems m T) := Wf_CreatePermanentItems hw T
  have hpw : List.Pairwise vlt
      (newChanges (CreatePermanentItems m T).entries s) :=
    newChanges_pairwise_vlt hw1 s
  have hBpw : List.Pairwise vlt
      ((newChanges (CreatePermanentItems m T).entries s).take BATCH_SIZE) :=
    List.Pairwise.sublist (List.take_sublist _ _) hpw
  have hfuel : ∀ fuel,
      (newChanges (CreatePermanentItems m T).entries s).length ≤
        fuel * BATCH_SIZE →
      collectChanges m T s fuel =
        (newChanges (CreatePermanentItems m T).entries s).filter
          (typeMatch T) := by
    intro fuel hlen
    rw [collectChanges_boot m T s fuel]
    exact collectChanges_eq fuel (CreatePermanentItems m T) s hw1
      (CreatePermanentItems_idem m T) hlen
  unfold GetChangesOk
  cases hgl : ((newChanges (CreatePermanentItems m T).entries s).take
      BATCH_SIZE).getLast? with
  | none =>
    have hB : (newChanges (CreatePermanentItems m T).entries s).take
        BATCH_SIZE = [] := List.getLast?_eq_none_iff.mp hgl
    have hNC : newChanges (CreatePermanentItems m T).entries s = [] := by
      rcases List.take_eq_nil_iff.mp hB with h2 | h2
      · exact absurd h2 (by unfold BATCH_SIZE; omega)
      · exact h2
    have hres : GetChangesFromTimestamp m T s =
        (CreatePermanentItems m T, s, []) := GetChanges_empty hNC
    refine ⟨GetChanges_model m T s, ?_, ?_, ?_, ?_, ?_, ?_, hfuel⟩
    · have h2 : ((newChanges (CreatePermanentItems m T).entries s).take
          BATCH_SIZE).filter (typeMatch T) = [] := by
        rw [hB]
        rfl
      rw [h2]
      exact congrArg (fun r => r.2.2) hres
    · intro e
      constructor
      · intro he
        rw [hres] at he
        exact absurd he (List.not_mem_nil e)
      · rintro ⟨_, _, h3, h4⟩
        rw [hres] at h4
        have h4b : e.version ≤ s := h4
        exact absurd h3 (by omega)
    · rw [hres]
      exact List.Pairwise.nil
    · rw [hres]
      show ([] : List SyncEntity).length ≤ BATCH_SIZE
      exact Nat.zero_le _
    · intro _
      exact hres
    · intro g hgg
      exact Option.noConfusion hgg
  | some g =>
    have hres : GetChangesFromTimestamp m T s =
        (CreatePermanentItems m T, g.version,
         ((newChanges (CreatePermanentItems m T).entries s).take
             BATCH_SIZE).filter (typeMatch T)) := GetChanges_getLast hgl
    refine ⟨GetChanges_model m T s, ?_, ?_, ?_, ?_, ?_, ?_, hfuel⟩
    · exact congrArg (fun r => r.2.2) hres
    · intro e
      constructor
      · intro he
        rw [hres] at he
        obtain ⟨heB, hety⟩ := List.mem_filter.mp he
        obtain ⟨hmem, hver⟩ := mem_newChanges.mp (List.mem_of_mem_take heB)
        refine ⟨hmem, hety, hver, ?_⟩
        rw [hres]
        exact le_getLast?_of_pairwise_vlt hBpw hgl e heB
      · rintro ⟨hmem, hety, hver, hle⟩
        rw [hres] at hle ⊢
        have hle2 : e.version ≤ g.version := hle
        have hem : e ∈ newChanges (CreatePermanentItems m T).entries s :=
          mem_newChanges.mpr ⟨hmem, hver⟩
        have hsplit : e ∈ (newChanges (CreatePermanentItems m T).entries
              s).take BATCH_SIZE ++
            (newChanges (CreatePermanentItems m T).entries s).drop
              BATCH_SIZE := by
          rw [List.take_append_drop]
          exact hem
        have heB : e ∈ (newChanges (CreatePermanentItems m T).entries
            s).take BATCH_SIZE := by
          rcases List.mem_append.mp hsplit with h2 | h2
          · exact h2
          · exfalso
            have hcross := cross_take_drop hpw g
              (List.mem_of_getLast?_eq_some hgl) e h2
            omega
        exact List.mem_filter.mpr ⟨heB, hety⟩
    · rw [hres]
      exact List.Pairwise.sublist (List.filter_sublist _) hBpw
    · rw [hres]
      have h2 := List.length_filter_le (typeMatch T)
        ((newChanges (CreatePermanentItems m T).entries s).take BATCH_SIZE)
      have h3 : ((newChanges (CreatePermanentItems m T).entries s).take
          BATCH_SIZE).length ≤ BATCH_SIZE := by
        rw [List.length_take]
        exact min_le_left _ _
      show (((newChanges (CreatePermanentItems m T).entries s).take
          BATCH_SIZE).filter (typeMatch T)).length ≤ BATCH_SIZE
      omega
    · intro hB0
      rw [hB0, List.getLast?_nil] at hgl
      exact Option.noConfusion hgl
    · intro g2 hgg
      injection hgg with hgeq
      subst hgeq
      rw [hres]

/-- Witness: the pagination contract holds of the fresh store for a
bookmark request from watermark zero. -/
theorem C2_change_feed_witness :
    Wf freshModel ∧ GetChangesOk freshModel [BOOKMARK, TOP_LEVEL] 0 :=
  ⟨by decide, C2_change_feed_pagination freshModel [BOOKMARK, TOP_LEVEL] 0
    (by decide)⟩

/-- C2 counterexample: after all permanent items exist (versions 1..9),
a request for bookmark data from watermark 0 returns the 4 matching
items (last returned version 4) but watermark 9 — the version of the
last change-log entry of the batch, which the type filter then dropped;
the claim's watermark, the version of the last returned item, would be
4, as the literal spec reading computes. -/
theorem C2_counterexample :
    (GetChangesFromTimestamp cxBootModel [BOOKMARK, TOP_LEVEL] 0).2.1 = 9 ∧
    (((GetChangesFromTimestamp cxBootModel
        [BOOKMARK, TOP_LEVEL] 0).2.2.getLast?).map
      (fun e => e.version)) = some 4 ∧
    (get_changes_spec cxBootModel [BOOKMARK, TOP_LEVEL] 0).2.1 = 4 ∧
    (9 : Nat) ≠ 4 := by
  refine ⟨by decide, by decide, by decide, by decide⟩

/-- C3: save assigns the next clock value as the item's version (and as
the new global clock), returns the saved item carrying it, and stores it
keyed by its id, overwriting any prior state for that id while leaving
every other id untouched; across any sequence of saves the assigned
versions are clock+1, clock+2, ... — strictly increasing, never
repeating, and starting at 1 on a fresh store; and the stored version at
any id never decreases across a save. -/
theorem C3_save_entry_versioning (m : SyncDataModel) (e : SyncEntity)
    (es : List SyncEntity) (i : String) (hw : Wf m) :
    (SaveEntry m e).2.version = m.version + 1 ∧
    (SaveEntry m e).1.version = m.version + 1 ∧
    findEntry (SaveEntry m e).1 e.id_string = some (SaveEntry m e).2 ∧
    (i ≠ e.id_string → findEntry (SaveEntry m e).1 i = findEntry m i) ∧
    assignedVersions m es =
      (List.range es.length).map (fun j => m.version + j + 1) ∧
    List.Pairwise (fun a b => a < b) (assignedVersions m es) ∧
    assignedVersions freshModel es =
      (List.range es.length).map (fun j => j + 1) ∧
    (∀ old nw, findEntry m i = some old →
      findEntry (SaveEntry m e).1 i = some nw →
      old.version ≤ nw.version) := by
  refine ⟨SaveEntry_version m e, SaveEntry_clock m e,
    findEntry_SaveEntry_self m e, fun h => findEntry_SaveEntry_ne m e i h,
    assignedVersions_eq es m, assignedVersions_pairwise m es, ?_, ?_⟩
  · rw [assignedVersions_eq]
    apply List.map_congr_left
    intro a _
    show 0 + a + 1 = a + 1
    omega
  · intro old nw hold hnew
    exact stored_version_mono (fun x hx => (hw.2.2 x hx).2) e i hold hnew

/-- Witness: the save contract at the bookmark-bootstrapped store — the
assigned version, the clock, self and other lookups, the versions of a
two-save sequence there and on the fresh store, and monotonicity of the
Other Bookmarks item across a save. -/
theorem C3_save_entry_witness :
    Wf wBootModel ∧
    (SaveEntry wBootModel (posEntity "abcd")).2.version =
      wBootModel.version + 1 ∧
    (SaveEntry wBootModel (posEntity "abcd")).1.version =
      wBootModel.version + 1 ∧
    findEntry (SaveEntry wBootModel (posEntity "abcd")).1 "abcd" =
      some (SaveEntry wBootModel (posEntity "abcd")).2 ∧
    findEntry (SaveEntry wBootModel (posEntity "abcd")).1
        "permanent_tag:other_bookmarks" =
      findEntry wBootModel "permanent_tag:other_bookmarks" ∧
    assignedVersions wBootModel [posEntity "u", posEntity "v"] =
      (List.range
        ([posEntity "u", posEntity "v"] : List SyncEntity).length).map
        (fun j => wBootModel.version + j + 1) ∧
    List.Pairwise (fun a b => a < b)
      (assignedVersions wBootModel [posEntity "u", posEntity "v"]) ∧
    assignedVersions freshModel [posEntity "u", posEntity "v"] =
      (List.range
        ([posEntity "u", posEntity "v"] : List SyncEntity).length).map
        (fun j => j + 1) ∧
    wOB.version ≤ wOB.version := by
  have h := C3_save_entry_versioning wBootModel (posEntity "abcd")
    [posEntity "u", posEntity "v"] "permanent_tag:other_bookmarks"
    (by decide)
  exact ⟨by decide, h.1, h.2.1, h.2.2.1, h.2.2.2.1 (by decide),
    h.2.2.2.2.1, h.2.2.2.2.2.1, h.2.2.2.2.2.2.1,
    h.2.2.2.2.2.2.2 wOB wOB (by decide) (by decide)⟩

/-- C4: for every sync type, reading changes for that type (plus the
top level) from a fresh store returns exactly its permanent items with
watermark equal to the count; the identical second call returns the very
same triple (store, watermark, items); and for any wider request list
containing the type and the top level, the wider call followed by the
original call re-creates nothing, disturbs no already-created permanent
item, and reproduces the wider call's watermark and the expected item
count. -/
theorem C4_permanent_item_idempotence (st : SyncType) (T2 : List SyncType)
    (h1 : st ∈ T2) (h2 : TOP_LEVEL ∈ T2) :
    (GetChangesFromTimestamp freshModel [st, TOP_LEVEL] 0).2.1 =
      ExpectedPermanentItemCount st ∧
    (GetChangesFromTimestamp freshModel [st, TOP_LEVEL] 0).2.2.length =
      ExpectedPermanentItemCount st ∧
    GetChangesFromTimestamp
        (GetChangesFromTimestamp freshModel [st, TOP_LEVEL] 0).1
        [st, TOP_LEVEL] 0 =
      GetChangesFromTimestamp freshModel [st, TOP_LEVEL] 0 ∧
    C4Superset st T2 := by
  have hmask : ∀ t,
      maskFun (T2.contains TOP_LEVEL) (T2.contains BOOKMARK)
        (T2.contains PREFERENCE) (T2.contains AUTOFILL) (T2.contains THEME)
        (T2.contains TYPED_URL) (T2.contains PASSWORD) t = T2.contains t := by
    intro t
    cases t <;> rfl
  have hagree : ∀ t, T2.contains t =
      (ALL_TYPES.filter
        (maskFun (T2.contains TOP_LEVEL) (T2.contains BOOKMARK)
          (T2.contains PREFERENCE) (T2.contains AUTOFILL) (T2.contains THEME)
          (T2.contains TYPED_URL) (T2.contains PASSWORD))).contains t := by
    intro t
    rw [contains_filter_ALL, hmask]
  have hsup : C4Superset st
      (ALL_TYPES.filter
        (maskFun (T2.contains TOP_LEVEL) (T2.contains BOOKMARK)
          (T2.contains PREFERENCE) (T2.contains AUTOFILL) (T2.contains THEME)
          (T2.contains TYPED_URL) (T2.contains PASSWORD))) := by
    apply C4_superset_all_masks
    · rw [contains_filter_ALL, hmask]
      exact contains_of_mem h1
    · exact contains_of_mem h2
  refine ⟨?_, ?_, ?_, C4Superset_congr hagree st hsup⟩
  · cases st <;> decide
  · cases st <;> decide
  · cases st <;> decide

/-- Witness: the idempotence contract at the bookmark type, with the
full type list as the wider request. -/
theorem C4_idempotence_witness :
    BOOKMARK ∈ ALL_TYPES ∧ TOP_LEVEL ∈ ALL_TYPES ∧
    ((GetChangesFromTimestamp freshModel [BOOKMARK, TOP_LEVEL] 0).2.1 =
       ExpectedPermanentItemCount BOOKMARK ∧
     (GetChangesFromTimestamp freshModel
         [BOOKMARK, TOP_LEVEL] 0).2.2.length =
       ExpectedPermanentItemCount BOOKMARK ∧
     GetChangesFromTimestamp
         (GetChangesFromTimestamp freshModel [BOOKMARK, TOP_LEVEL] 0).1
         [BOOKMARK, TOP_LEVEL] 0 =
       GetChangesFromTimestamp freshModel [BOOKMARK, TOP_LEVEL] 0 ∧
     C4Superset BOOKMARK ALL_TYPES) :=
  ⟨by decide, by decide,
   C4_permanent_item_idempotence BOOKMARK ALL_TYPES (by decide) (by decide)⟩
